import Mathlib

/-!
# Verification of the SPDF secure-document server

A shallow embedding of the core logic of the `spdf` repository
(container format, key wrapping and rotation, license/device
enforcement), with theorems checking the natural-language
specification against the code.

Conventions used throughout:
* byte strings are `List Nat` with every entry `< 256`;
* wall-clock times (Python `time.time()` floats) are `Int` values;
* Python exceptions are `Except` errors;
* cryptographic primitives from the `cryptography` package
  (AES block cipher, SHA-256, Ed25519) are explicit function
  parameters; the theorems that need them state standard
  ideal-primitive facts (inverse block cipher, locally
  collision-free hash, deterministic signatures) as hypotheses.
-/

/-! ## License guard state (`spdf-server/api/license.py`)

The module keeps two process-global dicts:
`_rate_limit_store : defaultdict(list)` mapping a client ip to the
timestamps of its recent requests, and `_failed_attempts`, a dict
that holds, for a pair key `f"{ip}:{license_key}"`, the list of
failure timestamps, and for `"lockout:" ++ key`, a lockout expiry
time.  We model the two kinds of entries of `_failed_attempts` as two
maps keyed by the pair key `ip ++ ":" ++ license_key`
(`failed`, total with default `[]`, matching `defaultdict(list)` and
`.get(key, [])`, and `lockout`, with `none` for an absent entry,
deletion being `none`). -/

def RATE_LIMIT_WINDOW : Int := 60

def RATE_LIMIT_MAX_REQUESTS : Nat := 20

def BRUTE_FORCE_WINDOW : Int := 300

def BRUTE_FORCE_MAX_ATTEMPTS : Nat := 5

def LOCKOUT_DURATION : Int := 900

/-- Pointwise update of a map modelled as a function. -/
def updateFn {α : Type} (f : String → α) (k : String) (v : α) : String → α :=
  fun x => if x = k then v else f x

/-- The `_rate_limit_store` dict. -/
structure RLState where
  store : String → List Int

/-- The `_failed_attempts` dict (failure lists and lockout entries). -/
structure BFState where
  failed : String → List Int
  lockout : String → Option Int

/-- `check_rate_limit(client_ip)`: evict timestamps older than the
window, compare the count to the ceiling, and on success record the
new timestamp.  Returns `true` when the request is allowed. -/
def checkRateLimit (now : Int) (clientIp : String) (s : RLState) : Bool × RLState :=
  let windowStart := now - RATE_LIMIT_WINDOW
  let pruned := (s.store clientIp).filter (fun t => windowStart < t)
  if RATE_LIMIT_MAX_REQUESTS ≤ pruned.length then
    (false, ⟨updateFn s.store clientIp pruned⟩)
  else
    (true, ⟨updateFn s.store clientIp (pruned ++ [now])⟩)

/-- The shared tail of `check_brute_force`: prune attempts older than
the window and compare the remaining count to the threshold. -/
def bfPruneAndCount (now : Int) (key : String) (s : BFState) : Bool × BFState :=
  let windowStart := now - BRUTE_FORCE_WINDOW
  let pruned := (s.failed key).filter (fun t => windowStart < t)
  (BRUTE_FORCE_MAX_ATTEMPTS ≤ pruned.length, ⟨updateFn s.failed key pruned, s.lockout⟩)

/-- `check_brute_force(client_ip, license_key)`: returns `true` when
the request must be blocked, either because a lockout is active or
because the pruned failure count has reached the threshold.  An
expired lockout entry is deleted. -/
def checkBruteForce (now : Int) (clientIp licenseKey : String) (s : BFState) :
    Bool × BFState :=
  let key := clientIp ++ ":" ++ licenseKey
  match s.lockout key with
  | some lockoutTime =>
    if now < lockoutTime then (true, s)
    else bfPruneAndCount now key ⟨s.failed, updateFn s.lockout key none⟩
  | none => bfPruneAndCount now key s

/-- `record_failed_attempt(client_ip, license_key)`: append the
timestamp; when the stored count reaches the threshold, set the
lockout expiry to `now + LOCKOUT_DURATION`. -/
def recordFailedAttempt (now : Int) (clientIp licenseKey : String) (s : BFState) :
    BFState :=
  let key := clientIp ++ ":" ++ licenseKey
  let attempts := s.failed key ++ [now]
  if BRUTE_FORCE_MAX_ATTEMPTS ≤ attempts.length then
    ⟨updateFn s.failed key attempts, updateFn s.lockout key (some (now + LOCKOUT_DURATION))⟩
  else
    ⟨updateFn s.failed key attempts, s.lockout⟩

/-- `clear_failed_attempts(client_ip, license_key)`: delete the
failure list of the pair (the default for an absent key is `[]`). -/
def clearFailedAttempts (clientIp licenseKey : String) (s : BFState) : BFState :=
  ⟨updateFn s.failed (clientIp ++ ":" ++ licenseKey) [], s.lockout⟩

/-- Outcome of the `/api/license/validate` endpoint: either an
`HTTPException(status_code, detail)` or the success payload (we keep
the `doc_id` it echoes). -/
inductive ValidateOutcome where
  | httpError (status : Nat) (detail : String)
  | granted (docId : String)
deriving DecidableEq

/-- The detail string of a rate-limit rejection in `validate_license`. -/
def rateLimitDetail : String := "Rate limit exceeded. Please try again later."

/-- The detail string of a brute-force-lockout rejection in `validate_license`. -/
def lockoutDetail : String := "Too many failed attempts. Account temporarily locked."

/-- The two guard stores used by `validate_license`. -/
structure ApiState where
  rl : RLState
  bf : BFState

/-- `validate_license(request, data)`: rate limiter first, then the
brute-force guard, then the placeholder validation
`is_valid = data.license_key.startswith("SPDF-")`; a failure records
a failed attempt, a success clears the pair's failures. -/
def validateLicense (now : Int) (clientIp licenseKey docId : String) (st : ApiState) :
    ValidateOutcome × ApiState :=
  match checkRateLimit now clientIp st.rl with
  | (false, rl1) => (.httpError 429 rateLimitDetail, ⟨rl1, st.bf⟩)
  | (true, rl1) =>
    match checkBruteForce now clientIp licenseKey st.bf with
    | (true, bf1) => (.httpError 429 lockoutDetail, ⟨rl1, bf1⟩)
    | (false, bf1) =>
      if licenseKey.startsWith "SPDF-" then
        (.granted docId, ⟨rl1, clearFailedAttempts clientIp licenseKey bf1⟩)
      else
        (.httpError 403 "Invalid license key", ⟨rl1, recordFailedAttempt now clientIp licenseKey bf1⟩)

/-! ## Lemmas about the brute-force guard -/

/-- Recording a failed attempt appends the timestamp to the pair's
failure list. -/
theorem recordFailedAttempt_failed (now : Int) (ip lic : String) (s : BFState) :
    (recordFailedAttempt now ip lic s).failed (ip ++ ":" ++ lic) =
      s.failed (ip ++ ":" ++ lic) ++ [now] := by
  simp only [recordFailedAttempt]
  split <;> simp [updateFn]

/-- Below the threshold, recording a failed attempt does not touch the
lockout entries. -/
theorem recordFailedAttempt_lockout_small (now : Int) (ip lic : String) (s : BFState)
    (h : (s.failed (ip ++ ":" ++ lic)).length + 1 < BRUTE_FORCE_MAX_ATTEMPTS) :
    (recordFailedAttempt now ip lic s).lockout = s.lockout := by
  simp only [recordFailedAttempt]
  rw [if_neg]
  simp
  omega

/-- Recording the failure that reaches the threshold sets the pair's
lockout expiry to `now + LOCKOUT_DURATION`. -/
theorem recordFailedAttempt_lockout_hit (now : Int) (ip lic : String) (s : BFState)
    (h : BRUTE_FORCE_MAX_ATTEMPTS ≤ (s.failed (ip ++ ":" ++ lic)).length + 1) :
    (recordFailedAttempt now ip lic s).lockout (ip ++ ":" ++ lic) =
      some (now + LOCKOUT_DURATION) := by
  simp only [recordFailedAttempt]
  rw [if_pos]
  · simp [updateFn]
  · simp
    omega

/-- While a lockout on the pair is active, `check_brute_force` blocks
the request and leaves the store unchanged. -/
theorem checkBruteForce_locked (now : Int) (ip lic : String) (s : BFState)
    (tLock : Int) (hl : s.lockout (ip ++ ":" ++ lic) = some tLock) (ht : now < tLock) :
    checkBruteForce now ip lic s = (true, s) := by
  simp only [checkBruteForce]
  rw [hl]
  simp [ht]

/-- **C6.** Brute-force lockout state machine: starting from a state
with no failures and no lockout for the pair, recording 5 validation
failures within the 300-second failure window locks the pair out, and
during the following 900-second lockout every `validate_license` call
for the pair is rejected — whatever the rate-limit store holds and in
particular even when the presented key is the correct (well-formed)
one; and a successful validation occurring before the threshold is
reached resets the pair's failure count to zero. -/
theorem C6_brute_force_lockout
    (ip lic docId : String) (s0 : BFState) (t1 t2 t3 t4 t5 : Int)
    (h0f : s0.failed (ip ++ ":" ++ lic) = [])
    (hw : t5 - BRUTE_FORCE_WINDOW < t1)
    (h12 : t1 ≤ t2) (h23 : t2 ≤ t3) (h34 : t3 ≤ t4) (h45 : t4 ≤ t5) :
    (∀ t : Int, ∀ rl : RLState, ∀ d : String, t5 ≤ t → t < t5 + LOCKOUT_DURATION →
      (validateLicense t ip lic docId
        ⟨rl, recordFailedAttempt t5 ip lic (recordFailedAttempt t4 ip lic
          (recordFailedAttempt t3 ip lic (recordFailedAttempt t2 ip lic
            (recordFailedAttempt t1 ip lic s0))))⟩).fst ≠ .granted d) ∧
    (∀ t : Int, ∀ st : ApiState,
      lic.startsWith "SPDF-" = true →
      (checkRateLimit t ip st.rl).fst = true →
      (checkBruteForce t ip lic st.bf).fst = false →
      (validateLicense t ip lic docId st).fst = .granted docId ∧
      (validateLicense t ip lic docId st).snd.bf.failed (ip ++ ":" ++ lic) = []) := by
  constructor
  · intro t rl d hta htb
    set s1 := recordFailedAttempt t1 ip lic s0 with hs1
    set s2 := recordFailedAttempt t2 ip lic s1 with hs2
    set s3 := recordFailedAttempt t3 ip lic s2 with hs3
    set s4 := recordFailedAttempt t4 ip lic s3 with hs4
    have hf1 : s1.failed (ip ++ ":" ++ lic) = [t1] := by
      rw [hs1, recordFailedAttempt_failed, h0f]; rfl
    have hf2 : s2.failed (ip ++ ":" ++ lic) = [t1, t2] := by
      rw [hs2, recordFailedAttempt_failed, hf1]; rfl
    have hf3 : s3.failed (ip ++ ":" ++ lic) = [t1, t2, t3] := by
      rw [hs3, recordFailedAttempt_failed, hf2]; rfl
    have hf4 : s4.failed (ip ++ ":" ++ lic) = [t1, t2, t3, t4] := by
      rw [hs4, recordFailedAttempt_failed, hf3]; rfl
    have hlock : (recordFailedAttempt t5 ip lic s4).lockout (ip ++ ":" ++ lic) =
        some (t5 + LOCKOUT_DURATION) := by
      apply recordFailedAttempt_lockout_hit
      rw [hf4]; simp [BRUTE_FORCE_MAX_ATTEMPTS]
    rcases hrl : checkRateLimit t ip rl with ⟨b, rl1⟩
    cases b
    · simp [validateLicense, hrl]
    · have hbf := checkBruteForce_locked t ip lic (recordFailedAttempt t5 ip lic s4)
        (t5 + LOCKOUT_DURATION) hlock htb
      simp [validateLicense, hrl, hbf]
  · intro t st hv hr hb
    rcases hrl : checkRateLimit t ip st.rl with ⟨b1, rl1⟩
    have hb1 : b1 = true := by rw [hrl] at hr; exact hr
    subst hb1
    rcases hbf : checkBruteForce t ip lic st.bf with ⟨b2, bf1⟩
    have hb2 : b2 = false := by rw [hbf] at hb; exact hb
    subst hb2
    constructor
    · simp [validateLicense, hrl, hbf, hv]
    · simp [validateLicense, hrl, hbf, hv, clearFailedAttempts, updateFn]

/-- **C6 witness.** A concrete run: five failures at times 0..4 from
one ip lock the pair out at time 100 even though the presented key is
well formed, and a fresh pair's successful validation ends with an
empty failure list. -/
theorem C6_brute_force_lockout_witness :
    ((⟨fun _ => [], fun _ => none⟩ : BFState).failed
        ("1.2.3.4" ++ ":" ++ "SPDF-AAAA-AAAA-AAAA-AAAA") = [] ∧
      (4 : Int) - BRUTE_FORCE_WINDOW < 0) ∧
    ((∀ t : Int, ∀ rl : RLState, ∀ d : String, 4 ≤ t → t < 4 + LOCKOUT_DURATION →
      (validateLicense t "1.2.3.4" "SPDF-AAAA-AAAA-AAAA-AAAA" "DOC-1"
        ⟨rl, recordFailedAttempt 4 "1.2.3.4" "SPDF-AAAA-AAAA-AAAA-AAAA"
          (recordFailedAttempt 3 "1.2.3.4" "SPDF-AAAA-AAAA-AAAA-AAAA"
            (recordFailedAttempt 2 "1.2.3.4" "SPDF-AAAA-AAAA-AAAA-AAAA"
              (recordFailedAttempt 1 "1.2.3.4" "SPDF-AAAA-AAAA-AAAA-AAAA"
                (recordFailedAttempt 0 "1.2.3.4" "SPDF-AAAA-AAAA-AAAA-AAAA"
                  ⟨fun _ => [], fun _ => none⟩))))⟩).fst ≠ .granted d) ∧
    (∀ t : Int, ∀ st : ApiState,
      "SPDF-AAAA-AAAA-AAAA-AAAA".startsWith "SPDF-" = true →
      (checkRateLimit t "1.2.3.4" st.rl).fst = true →
      (checkBruteForce t "1.2.3.4" "SPDF-AAAA-AAAA-AAAA-AAAA" st.bf).fst = false →
      (validateLicense t "1.2.3.4" "SPDF-AAAA-AAAA-AAAA-AAAA" "DOC-1" st).fst =
        .granted "DOC-1" ∧
      (validateLicense t "1.2.3.4" "SPDF-AAAA-AAAA-AAAA-AAAA" "DOC-1" st).snd.bf.failed
        ("1.2.3.4" ++ ":" ++ "SPDF-AAAA-AAAA-AAAA-AAAA") = [])) :=
  ⟨⟨rfl, by decide⟩,
    C6_brute_force_lockout "1.2.3.4" "SPDF-AAAA-AAAA-AAAA-AAAA" "DOC-1"
      ⟨fun _ => [], fun _ => none⟩ 0 1 2 3 4 rfl (by decide) (by decide) (by decide)
      (by decide) (by decide)⟩

/-! ## C7: rate-limit rejection vs lockout rejection -/

/-- A rate-limit store with 20 recent timestamps for every client. -/
def rlSaturated : RLState := ⟨fun _ => List.replicate 20 999⟩

/-- An empty rate-limit store. -/
def rlEmpty : RLState := ⟨fun _ => []⟩

/-- A brute-force store with an active lockout on every pair. -/
def bfLocked : BFState := ⟨fun _ => [], fun _ => some 1500⟩

/-- An empty brute-force store. -/
def bfEmpty : BFState := ⟨fun _ => [], fun _ => none⟩

/-- **C7 counterexample.** The rejection issued when the rate-limit
ceiling is exceeded and the rejection issued under brute-force lockout
are not outwardly identical: both carry HTTP status 429, but their
detail messages differ, so a caller observing the response can tell
which guard fired. -/
theorem C7_lockout_distinguishable_counterexample :
    (validateLicense 1000 "1.2.3.4" "SPDF-AAAA-AAAA-AAAA-AAAA" "DOC-1"
        ⟨rlSaturated, bfEmpty⟩).fst = .httpError 429 rateLimitDetail ∧
    (validateLicense 1000 "1.2.3.4" "SPDF-AAAA-AAAA-AAAA-AAAA" "DOC-1"
        ⟨rlEmpty, bfLocked⟩).fst = .httpError 429 lockoutDetail ∧
    (validateLicense 1000 "1.2.3.4" "SPDF-AAAA-AAAA-AAAA-AAAA" "DOC-1"
        ⟨rlSaturated, bfEmpty⟩).fst ≠
      (validateLicense 1000 "1.2.3.4" "SPDF-AAAA-AAAA-AAAA-AAAA" "DOC-1"
        ⟨rlEmpty, bfLocked⟩).fst := by
  refine ⟨rfl, rfl, ?_⟩
  decide

/-- **C7 (amended).** The two rejections share the HTTP status code
429, but carry the distinct fixed detail strings
"Rate limit exceeded. Please try again later." and
"Too many failed attempts. Account temporarily locked.", so only the
status code — not the full response — is indistinguishable. -/
theorem C7_lockout_rejection_status_amended
    (now : Int) (ip lic docId : String) (st : ApiState) :
    ((checkRateLimit now ip st.rl).fst = false →
      (validateLicense now ip lic docId st).fst = .httpError 429 rateLimitDetail) ∧
    ((checkRateLimit now ip st.rl).fst = true →
      (checkBruteForce now ip lic st.bf).fst = true →
      (validateLicense now ip lic docId st).fst = .httpError 429 lockoutDetail) ∧
    rateLimitDetail ≠ lockoutDetail := by
  refine ⟨?_, ?_, by simp [rateLimitDetail, lockoutDetail]⟩
  · intro hr
    rcases hrl : checkRateLimit now ip st.rl with ⟨b, rl1⟩
    have : b = false := by rw [hrl] at hr; exact hr
    subst this
    simp [validateLicense, hrl]
  · intro hr hb
    rcases hrl : checkRateLimit now ip st.rl with ⟨b1, rl1⟩
    have : b1 = true := by rw [hrl] at hr; exact hr
    subst this
    rcases hbf : checkBruteForce now ip lic st.bf with ⟨b2, bf1⟩
    have : b2 = true := by rw [hbf] at hb; exact hb
    subst this
    simp [validateLicense, hrl, hbf]

/-- **C7 witness.** The amended theorem applied to the two concrete
scenarios of the counterexample. -/
theorem C7_lockout_rejection_status_witness :
    ((checkRateLimit 1000 "1.2.3.4" rlSaturated).fst = false ∧
      (validateLicense 1000 "1.2.3.4" "SPDF-AAAA-AAAA-AAAA-AAAA" "DOC-1"
        ⟨rlSaturated, bfEmpty⟩).fst = .httpError 429 rateLimitDetail) ∧
    ((checkRateLimit 1000 "1.2.3.4" rlEmpty).fst = true ∧
      (checkBruteForce 1000 "1.2.3.4" "SPDF-AAAA-AAAA-AAAA-AAAA" bfLocked).fst = true ∧
      (validateLicense 1000 "1.2.3.4" "SPDF-AAAA-AAAA-AAAA-AAAA" "DOC-1"
        ⟨rlEmpty, bfLocked⟩).fst = .httpError 429 lockoutDetail) :=
  ⟨⟨by decide,
    (C7_lockout_rejection_status_amended 1000 "1.2.3.4" "SPDF-AAAA-AAAA-AAAA-AAAA"
      "DOC-1" ⟨rlSaturated, bfEmpty⟩).1 (by decide)⟩,
  ⟨by decide, by decide,
    (C7_lockout_rejection_status_amended 1000 "1.2.3.4" "SPDF-AAAA-AAAA-AAAA-AAAA"
      "DOC-1" ⟨rlEmpty, bfLocked⟩).2.1 (by decide) (by decide)⟩⟩

/-! ## C9: license-key issuance (`api/license.py`, `routes/admin.py`)

`generate_license_key` draws 16 characters from
`string.ascii_uppercase + string.digits` with `secrets.choice`; we
model the stream of random draws as an explicit function
`c : Nat → Fin 36` giving the index of each draw. -/

/-- `string.ascii_uppercase + string.digits`: the 26 uppercase
letters followed by the 10 digits, by code point. -/
def licenseChars : List Char :=
  (List.range 26).map (fun i => Char.ofNat (65 + i)) ++
    (List.range 10).map (fun i => Char.ofNat (48 + i))

/-- `secrets.choice(chars)` for the `i`-th draw of the stream. -/
def chooseChar (c : Nat → Fin 36) (i : Nat) : Char :=
  licenseChars.getD (c i).val 'A'

/-- `generate_license_key()`: `f"SPDF-{'-'.join(parts)}"` with four
4-character groups. -/
def generateLicenseKey (c : Nat → Fin 36) : String :=
  String.mk ('S' :: 'P' :: 'D' :: 'F' :: '-' ::
    chooseChar c 0 :: chooseChar c 1 :: chooseChar c 2 :: chooseChar c 3 :: '-' ::
    chooseChar c 4 :: chooseChar c 5 :: chooseChar c 6 :: chooseChar c 7 :: '-' ::
    chooseChar c 8 :: chooseChar c 9 :: chooseChar c 10 :: chooseChar c 11 :: '-' ::
    chooseChar c 12 :: chooseChar c 13 :: chooseChar c 14 :: chooseChar c 15 :: [])

/-- One character of the class `[A-Z0-9]`. -/
def isKeyChar (ch : Char) : Bool :=
  (65 ≤ ch.toNat && ch.toNat ≤ 90) || (48 ≤ ch.toNat && ch.toNat ≤ 57)

/-- The regular expression
`SPDF-[A-Z0-9]{4}-[A-Z0-9]{4}-[A-Z0-9]{4}-[A-Z0-9]{4}` as a decidable
predicate on strings. -/
def matchesLicensePattern (s : String) : Bool :=
  match s.toList with
  | [p1, p2, p3, p4, d1, a1, a2, a3, a4, d2, b1, b2, b3, b4, d3,
     c1, c2, c3, c4, d4, e1, e2, e3, e4] =>
      (p1 == 'S') && (p2 == 'P') && (p3 == 'D') && (p4 == 'F') &&
      (d1 == '-') && (d2 == '-') && (d3 == '-') && (d4 == '-') &&
      isKeyChar a1 && isKeyChar a2 && isKeyChar a3 && isKeyChar a4 &&
      isKeyChar b1 && isKeyChar b2 && isKeyChar b3 && isKeyChar b4 &&
      isKeyChar c1 && isKeyChar c2 && isKeyChar c3 && isKeyChar c4 &&
      isKeyChar e1 && isKeyChar e2 && isKeyChar e3 && isKeyChar e4
  | _ => false

/-- The `k`-th call of `create_license` in `api/license.py`: it calls
`generate_license_key()` once, consuming the next 16 draws of the
shared random stream, with no check against previously issued keys. -/
def issueLicenseKeySeq (c : Nat → Fin 36) (k : Nat) : String :=
  generateLicenseKey (fun i => c (16 * k + i))

/-- The issuance loop of `routes/admin.py` `create_license`:
`license_key = generate_license_key()` followed by
`while db.query(...).first(): license_key = generate_license_key()`,
re-drawing while the key collides with an already-issued one.  `fuel`
bounds the number of draws; `none` means the loop had not terminated
within `fuel` draws. -/
def adminCreateLicenseKey (issued : List String) (c : Nat → Fin 36) :
    Nat → Nat → Option String
  | 0, _ => none
  | fuel + 1, i =>
    let key := generateLicenseKey (fun j => c (16 * i + j))
    if key ∈ issued then adminCreateLicenseKey issued c fuel (i + 1) else some key

/-- Every draw yields a character of the class `[A-Z0-9]`. -/
theorem isKeyChar_chooseChar (c : Nat → Fin 36) (i : Nat) :
    isKeyChar (chooseChar c i) = true := by
  have h : ∀ x : Fin 36, isKeyChar (licenseChars.getD x.val 'A') = true := by decide
  exact h (c i)

/-- Whatever the random draws, `generate_license_key` matches the
license-key pattern. -/
theorem generateLicenseKey_matches (c : Nat → Fin 36) :
    matchesLicensePattern (generateLicenseKey c) = true := by
  simp [matchesLicensePattern, generateLicenseKey, String.toList, isKeyChar_chooseChar]

/-- **C9 counterexample.** Issuance through `api/license.py`
`create_license` performs no collision check: it is not the case that
successive issuances always produce distinct keys — a random stream
that repeats its draws makes two successive calls return the same
key. -/
theorem C9_issuance_collision_counterexample :
    ¬ (∀ (c : Nat → Fin 36) (k l : Nat), k ≠ l →
        issueLicenseKeySeq c k ≠ issueLicenseKeySeq c l) := by
  intro h
  exact h (fun _ => (0 : Fin 36)) 0 1 (by decide) rfl

/-- **C9 (amended).** Every key produced by issuance matches
`SPDF-[A-Z0-9]{4}-[A-Z0-9]{4}-[A-Z0-9]{4}-[A-Z0-9]{4}`.  The admin
issuance route (`routes/admin.py`), which does retry on collision,
returns a key distinct from all previously issued ones whenever its
retry loop terminates; the `api/license.py` issuance path has no such
check, so distinctness of its successive keys is only probabilistic
(see the counterexample). -/
theorem C9_issuance_pattern_amended :
    (∀ (c : Nat → Fin 36) (k : Nat),
      matchesLicensePattern (issueLicenseKeySeq c k) = true) ∧
    (∀ (issued : List String) (c : Nat → Fin 36) (fuel i : Nat) (key : String),
      adminCreateLicenseKey issued c fuel i = some key →
      matchesLicensePattern key = true ∧ key ∉ issued) := by
  constructor
  · intro c k
    exact generateLicenseKey_matches _
  · intro issued c fuel
    induction fuel with
    | zero => intro i key h; simp [adminCreateLicenseKey] at h
    | succ n ih =>
      intro i key h
      simp only [adminCreateLicenseKey] at h
      by_cases hmem : generateLicenseKey (fun j => c (16 * i + j)) ∈ issued
      · rw [if_pos hmem] at h
        exact ih (i + 1) key h
      · rw [if_neg hmem] at h
        cases h
        exact ⟨generateLicenseKey_matches _, hmem⟩

/-- **C9 witness.** The amended theorem applied to a concrete run: a
constant stream of draws of character index 1 and one already-issued
key. -/
theorem C9_issuance_pattern_witness :
    (adminCreateLicenseKey ["SPDF-AAAA-AAAA-AAAA-AAAA"] (fun _ => (1 : Fin 36)) 1 0 =
      some "SPDF-BBBB-BBBB-BBBB-BBBB") ∧
    (matchesLicensePattern "SPDF-BBBB-BBBB-BBBB-BBBB" = true ∧
      "SPDF-BBBB-BBBB-BBBB-BBBB" ∉ ["SPDF-AAAA-AAAA-AAAA-AAAA"]) :=
  ⟨by decide,
    C9_issuance_pattern_amended.2 ["SPDF-AAAA-AAAA-AAAA-AAAA"]
      (fun _ => (1 : Fin 36)) 1 0 "SPDF-BBBB-BBBB-BBBB-BBBB" (by decide)⟩

/-! ## C8: device fingerprinting (`api/device.py` `compute_device_hash`)

The `/api/device/fingerprint` endpoint computes
`SHA256(salt + f"{cpu_id}:{mac_normalized}:{os_info}".encode('utf-8')).hexdigest()`
with `mac_normalized = mac_address.upper().replace('-', ':')`.
Strings are `List Char`; SHA-256 (composed with hex encoding) is an
abstract function parameter `sha`.  (`crypto/keys.py` also contains a
`hash_device_info` without the MAC normalization, but it is referenced
only by tests; the fingerprint endpoint uses `compute_device_hash`.) -/

/-- `mac_address.upper().replace('-', ':')`.  `str.upper` on the ASCII
inputs at hand is `Char.toUpper` per character, and replacing the
one-character substring `'-'` is a per-character map. -/
def normalizeMac (mac : List Char) : List Char :=
  (mac.map Char.toUpper).map (fun ch => if ch = '-' then ':' else ch)

/-- `.encode('utf-8')`, modelled as the code points; it agrees with
UTF-8 on the ASCII range and is injective everywhere. -/
def charBytes (l : List Char) : List Nat := l.map Char.toNat

/-- `compute_device_hash(cpu_id, mac_address, os_info, salt)`. -/
def computeDeviceHash (sha : List Nat → List Nat) (cpuId mac osInfo : List Char)
    (salt : List Nat) : List Nat :=
  sha (salt ++ charBytes (cpuId ++ ':' :: (normalizeMac mac ++ ':' :: osInfo)))

/-- Lowercase hex digits, by code point. -/
def hexLowerChar (x : Fin 16) : Char :=
  if x.val < 10 then Char.ofNat (48 + x.val) else Char.ofNat (87 + x.val)

/-- Uppercase hex digits, by code point. -/
def hexUpperChar (x : Fin 16) : Char :=
  if x.val < 10 then Char.ofNat (48 + x.val) else Char.ofNat (55 + x.val)

/-- A MAC address of digits `d`, written in lowercase hex with `-`
separators. -/
def macLowerDashes (d : Fin 12 → Fin 16) : List Char :=
  [hexLowerChar (d 0), hexLowerChar (d 1), '-',
   hexLowerChar (d 2), hexLowerChar (d 3), '-',
   hexLowerChar (d 4), hexLowerChar (d 5), '-',
   hexLowerChar (d 6), hexLowerChar (d 7), '-',
   hexLowerChar (d 8), hexLowerChar (d 9), '-',
   hexLowerChar (d 10), hexLowerChar (d 11)]

/-- The same MAC address written in uppercase hex with `:`
separators. -/
def macUpperColons (d : Fin 12 → Fin 16) : List Char :=
  [hexUpperChar (d 0), hexUpperChar (d 1), ':',
   hexUpperChar (d 2), hexUpperChar (d 3), ':',
   hexUpperChar (d 4), hexUpperChar (d 5), ':',
   hexUpperChar (d 6), hexUpperChar (d 7), ':',
   hexUpperChar (d 8), hexUpperChar (d 9), ':',
   hexUpperChar (d 10), hexUpperChar (d 11)]

/-- Upper-casing a lowercase hex digit gives the uppercase digit. -/
theorem toUpper_hexLowerChar (x : Fin 16) :
    Char.toUpper (hexLowerChar x) = hexUpperChar x := by
  revert x; decide

/-- Uppercase hex digits are untouched by `upper()`. -/
theorem toUpper_hexUpperChar (x : Fin 16) :
    Char.toUpper (hexUpperChar x) = hexUpperChar x := by
  revert x; decide

/-- Uppercase hex digits are not the separator `-`. -/
theorem hexUpperChar_if_dash (x : Fin 16) :
    (if hexUpperChar x = '-' then ':' else hexUpperChar x) = hexUpperChar x := by
  revert x; decide

/-- `upper()` fixes the separator `-`. -/
theorem toUpper_dash : Char.toUpper '-' = '-' := by decide

/-- `upper()` fixes the separator `:`. -/
theorem toUpper_colon : Char.toUpper ':' = ':' := by decide

/-- Normalization maps the lowercase-dashed writing to the
uppercase-colon writing. -/
theorem normalizeMac_lower (d : Fin 12 → Fin 16) :
    normalizeMac (macLowerDashes d) = macUpperColons d := by
  simp only [normalizeMac, macLowerDashes, macUpperColons, List.map_cons, List.map_nil,
    toUpper_hexLowerChar, toUpper_dash]
  norm_num [hexUpperChar_if_dash]

/-- The uppercase-colon writing is a fixed point of normalization. -/
theorem normalizeMac_upper (d : Fin 12 → Fin 16) :
    normalizeMac (macUpperColons d) = macUpperColons d := by
  simp only [normalizeMac, macUpperColons, List.map_cons, List.map_nil,
    toUpper_hexUpperChar, toUpper_colon]
  norm_num [hexUpperChar_if_dash]

/-- Code points determine characters. -/
theorem char_toNat_injective : Function.Injective Char.toNat := by
  intro a b h
  exact Char.eq_of_val_eq (UInt32.eq_of_toBitVec_eq (BitVec.toNat_injective h))

/-- The byte encoding of a string is injective. -/
theorem charBytes_injective : Function.Injective charBytes :=
  List.map_injective_iff.mpr char_toNat_injective

/-- **C8.** Fingerprint normalization: for every `cpu_id`, OS
descriptor and salt, fingerprinting a MAC address written in lowercase
hex with `-` separators yields the same digest as fingerprinting the
same MAC address written in uppercase hex with `:` separators; and,
for a hash with no collisions (SHA-256 idealized as injective), any
change to one input value — the cpu id, the MAC address up to
formatting, the OS descriptor, or the salt, the other inputs held
fixed — changes the digest. -/
theorem C8_fingerprint_normalization :
    (∀ (sha : List Nat → List Nat) (cpuId osInfo : List Char) (salt : List Nat)
        (d : Fin 12 → Fin 16),
      computeDeviceHash sha cpuId (macLowerDashes d) osInfo salt =
        computeDeviceHash sha cpuId (macUpperColons d) osInfo salt) ∧
    (∀ (sha : List Nat → List Nat), Function.Injective sha →
      ∀ (cpuId cpuId2 mac mac2 osInfo osInfo2 : List Char) (salt salt2 : List Nat),
      (cpuId ≠ cpuId2 →
        computeDeviceHash sha cpuId mac osInfo salt ≠
          computeDeviceHash sha cpuId2 mac osInfo salt) ∧
      (normalizeMac mac ≠ normalizeMac mac2 →
        computeDeviceHash sha cpuId mac osInfo salt ≠
          computeDeviceHash sha cpuId mac2 osInfo salt) ∧
      (osInfo ≠ osInfo2 →
        computeDeviceHash sha cpuId mac osInfo salt ≠
          computeDeviceHash sha cpuId mac osInfo2 salt) ∧
      (salt ≠ salt2 →
        computeDeviceHash sha cpuId mac osInfo salt ≠
          computeDeviceHash sha cpuId mac osInfo salt2)) := by
  constructor
  · intro sha cpuId osInfo salt d
    unfold computeDeviceHash
    rw [normalizeMac_lower, normalizeMac_upper]
  · intro sha hsha cpuId cpuId2 mac mac2 osInfo osInfo2 salt salt2
    refine ⟨?_, ?_, ?_, ?_⟩
    · intro hne hEq
      apply hne
      have h1 := charBytes_injective (List.append_cancel_left (hsha hEq))
      exact List.append_cancel_right h1
    · intro hne hEq
      apply hne
      have h1 := charBytes_injective (List.append_cancel_left (hsha hEq))
      have h2 := List.append_cancel_left h1
      have h3 : normalizeMac mac ++ ':' :: osInfo = normalizeMac mac2 ++ ':' :: osInfo :=
        List.cons_injective h2
      exact List.append_cancel_right h3
    · intro hne hEq
      apply hne
      have h1 := charBytes_injective (List.append_cancel_left (hsha hEq))
      have h2 := List.append_cancel_left h1
      have h3 := List.cons_injective h2
      have h4 := List.append_cancel_left h3
      exact List.cons_injective h4
    · intro hne hEq
      apply hne
      exact List.append_cancel_right (hsha hEq)

/-- **C8 witness.** With the identity function as the (injective)
hash, a concrete MAC written both ways gives one digest, and concrete
single-input changes give different digests. -/
theorem C8_fingerprint_normalization_witness :
    (computeDeviceHash id ['c', 'p', 'u'] (macLowerDashes (fun _ => 0)) ['o', 's']
        [1, 2, 3] =
      computeDeviceHash id ['c', 'p', 'u'] (macUpperColons (fun _ => 0)) ['o', 's']
        [1, 2, 3]) ∧
    (['c', 'p', 'u'] ≠ ['c', 'p', 'x'] ∧
      computeDeviceHash id ['c', 'p', 'u'] ['A', 'A'] ['o', 's'] [1, 2, 3] ≠
        computeDeviceHash id ['c', 'p', 'x'] ['A', 'A'] ['o', 's'] [1, 2, 3]) ∧
    (normalizeMac ['A', 'A'] ≠ normalizeMac ['A', 'B'] ∧
      computeDeviceHash id ['c', 'p', 'u'] ['A', 'A'] ['o', 's'] [1, 2, 3] ≠
        computeDeviceHash id ['c', 'p', 'u'] ['A', 'B'] ['o', 's'] [1, 2, 3]) :=
  ⟨C8_fingerprint_normalization.1 id ['c', 'p', 'u'] ['o', 's'] [1, 2, 3] (fun _ => 0),
    ⟨by decide,
      (C8_fingerprint_normalization.2 id (fun _ _ h => h) ['c', 'p', 'u'] ['c', 'p', 'x']
        ['A', 'A'] ['A', 'A'] ['o', 's'] ['o', 's'] [1, 2, 3] [1, 2, 3]).1 (by decide)⟩,
    ⟨by decide,
      ((C8_fingerprint_normalization.2 id (fun _ _ h => h) ['c', 'p', 'u'] ['c', 'p', 'u']
        ['A', 'A'] ['A', 'B'] ['o', 's'] ['o', 's'] [1, 2, 3] [1, 2, 3]).2).1 (by decide)⟩⟩

/-! ## Key wrapping (`crypto/keys.py`, RFC 3394 via
`cryptography.hazmat.primitives.keywrap`)

`wrap_key`/`unwrap_key` call `aes_key_wrap`/`aes_key_unwrap`, the
RFC 3394 key wrap over single-block AES-256 encryptions.  The AES-256
block cipher is modelled as an abstract family
`E, D : List Nat → Nat × Nat → Nat × Nat` indexed by the 32-byte
master key, acting on a 128-bit block split into two 64-bit halves;
theorems assume `D mk` inverts `E mk` on 64-bit halves and that the
outputs are 64-bit, which is what the AES permutation guarantees.
Error messages carried by `KeyManagementError` are not modelled. -/

/-- `KeyManagementError`. -/
inductive KMError where
  | keyManagementError
deriving DecidableEq

/-- A 64-bit big-endian block read from 8 bytes. -/
def toBlock (l : List Nat) : Nat := l.foldl (fun a b => a * 256 + b) 0

/-- The 8 big-endian bytes of a 64-bit block. -/
def fromBlock (n : Nat) : List Nat :=
  [n / 256 ^ 7 % 256, n / 256 ^ 6 % 256, n / 256 ^ 5 % 256, n / 256 ^ 4 % 256,
   n / 256 ^ 3 % 256, n / 256 ^ 2 % 256, n / 256 ^ 1 % 256, n % 256]

/-- The RFC 3394 initial value `0xA6A6A6A6A6A6A6A6`. -/
def KWIV : Nat := 0xA6A6A6A6A6A6A6A6

/-- One round of `_wrap_core` at counter `t` (`1 ≤ t ≤ 6 n`): encrypt
`A ‖ R[i]` with `i = (t-1) % n`, xor the counter into the new `A`, and
store the low half back into `R[i]`. -/
def wrapStep (enc : Nat × Nat → Nat × Nat) (n : Nat) (st : Nat × List Nat) (t : Nat) :
    Nat × List Nat :=
  let i := (t - 1) % n
  let b := enc (st.1, st.2.getD i 0)
  (b.1 ^^^ t, st.2.set i b.2)

/-- One round of `_unwrap_core` at counter `t`: decrypt
`(A ^ t) ‖ R[i]` and split the result back into `A` and `R[i]`. -/
def unwrapStep (dec : Nat × Nat → Nat × Nat) (n : Nat) (st : Nat × List Nat) (t : Nat) :
    Nat × List Nat :=
  let i := (t - 1) % n
  let b := dec (st.1 ^^^ t, st.2.getD i 0)
  (b.1, st.2.set i b.2)

/-- `_wrap_core`: 6 n rounds with counters `1, 2, ..., 6 n`. -/
def wrapCore (enc : Nat × Nat → Nat × Nat) (n : Nat) (st : Nat × List Nat) :
    Nat × List Nat :=
  (List.range' 1 (6 * n)).foldl (wrapStep enc n) st

/-- `_unwrap_core`: the rounds of `_wrap_core` in reverse order. -/
def unwrapCore (dec : Nat × Nat → Nat × Nat) (n : Nat) (st : Nat × List Nat) :
    Nat × List Nat :=
  ((List.range' 1 (6 * n)).reverse).foldl (unwrapStep dec n) st

/-- The four 64-bit blocks of a 32-byte key. -/
def keyBlocks (l : List Nat) : List Nat :=
  [toBlock (l.take 8), toBlock ((l.drop 8).take 8),
   toBlock ((l.drop 16).take 8), toBlock ((l.drop 24).take 8)]

/-- The byte serialization of four 64-bit blocks. -/
def blocksBytes (r : List Nat) : List Nat :=
  fromBlock (r.getD 0 0) ++ (fromBlock (r.getD 1 0) ++
    (fromBlock (r.getD 2 0) ++ fromBlock (r.getD 3 0)))

/-- `aes_key_wrap(wrapping_key, key_to_wrap)` for a 32-byte key
(`n = 4`): run the rounds from `A = IV` and output `A ‖ R`. -/
def aesKeyWrap (enc : Nat × Nat → Nat × Nat) (keyToWrap : List Nat) : List Nat :=
  let st := wrapCore enc 4 (KWIV, keyBlocks keyToWrap)
  fromBlock st.1 ++ blocksBytes st.2

/-- `aes_key_unwrap(wrapping_key, wrapped_key)` for a 40-byte input:
run the rounds backwards and check the recovered `A` against the IV;
a mismatch raises (`InvalidUnwrap`, surfaced by `unwrap_key` as
`KeyManagementError`). -/
def aesKeyUnwrap (dec : Nat × Nat → Nat × Nat) (wrapped : List Nat) :
    Except KMError (List Nat) :=
  let a := toBlock (wrapped.take 8)
  let r := keyBlocks (wrapped.drop 8)
  let st := unwrapCore dec 4 (a, r)
  if st.1 = KWIV then .ok (blocksBytes st.2) else .error .keyManagementError

/-- `KeyManager.wrap_key(doc_key)` under master key `master`. -/
def wrap_key (E : List Nat → Nat × Nat → Nat × Nat) (master docKey : List Nat) :
    Except KMError (List Nat) :=
  if docKey.length ≠ 32 then .error .keyManagementError
  else .ok (aesKeyWrap (E master) docKey)

/-- `KeyManager.unwrap_key(wrapped_key)` under master key `master`. -/
def unwrap_key (D : List Nat → Nat × Nat → Nat × Nat) (master wrapped : List Nat) :
    Except KMError (List Nat) :=
  if wrapped.length ≠ 40 then .error .keyManagementError
  else aesKeyUnwrap (D master) wrapped

/-- The mutable part of a `KeyManager`: its loaded `_master_key`. -/
structure VaultState where
  masterKey : List Nat
deriving DecidableEq

/-- Sequencing of a fallible map over a list, modelling a Python
`for` loop that may raise on any element. -/
def mapExcept {α β ε : Type} (f : α → Except ε β) : List α → Except ε (List β)
  | [] => .ok []
  | x :: xs =>
    match f x with
    | .error e => .error e
    | .ok y =>
      match mapExcept f xs with
      | .error e => .error e
      | .ok ys => .ok (y :: ys)

/-- `KeyManager.rotate_master_key(new_master_key, wrapped_keys)`:
check the new master key length, unwrap every key under the current
master, switch `_master_key` to the new master, re-wrap every key, and
on a wrap failure roll `_master_key` back to the old master.  The
returned state is the vault state observable after the call. -/
def rotate_master_key (E D : List Nat → Nat × Nat → Nat × Nat) (st : VaultState)
    (newMaster : List Nat) (wrappedKeys : List (List Nat)) :
    VaultState × Except KMError (List (List Nat)) :=
  if newMaster.length ≠ 32 then (st, .error .keyManagementError)
  else
    match mapExcept (unwrap_key D st.masterKey) wrappedKeys with
    | .error e => (st, .error e)
    | .ok docKeys =>
      match mapExcept (wrap_key E newMaster) docKeys with
      | .error _ => (st, .error .keyManagementError)
      | .ok newWrapped => (⟨newMaster⟩, .ok newWrapped)

/-! ### Block and byte conversion lemmas -/

/-- `fromBlock` always yields 8 bytes. -/
theorem fromBlock_length (n : Nat) : (fromBlock n).length = 8 := rfl

/-- `fromBlock` always yields byte values. -/
theorem fromBlock_bytes (n : Nat) : ∀ b ∈ fromBlock n, b < 256 := by
  intro b hb
  simp only [fromBlock, List.mem_cons, List.not_mem_nil, or_false] at hb
  rcases hb with h | h | h | h | h | h | h | h <;> subst h <;> omega

/-- An 8-byte list encodes a 64-bit block. -/
theorem toBlock_lt (l : List Nat) (h8 : l.length = 8) (hb : ∀ b ∈ l, b < 256) :
    toBlock l < 2 ^ 64 := by
  match l, h8 with
  | [b0, b1, b2, b3, b4, b5, b6, b7], _ =>
    have h0 := hb b0 (by simp)
    have h1 := hb b1 (by simp)
    have h2 := hb b2 (by simp)
    have h3 := hb b3 (by simp)
    have h4 := hb b4 (by simp)
    have h5 := hb b5 (by simp)
    have h6 := hb b6 (by simp)
    have h7 := hb b7 (by simp)
    simp only [toBlock, List.foldl]
    norm_num
    omega

/-- Serializing a block read from 8 bytes gives back the bytes. -/
theorem fromBlock_toBlock (l : List Nat) (h8 : l.length = 8) (hb : ∀ b ∈ l, b < 256) :
    fromBlock (toBlock l) = l := by
  match l, h8 with
  | [b0, b1, b2, b3, b4, b5, b6, b7], _ =>
    have h0 := hb b0 (by simp)
    have h1 := hb b1 (by simp)
    have h2 := hb b2 (by simp)
    have h3 := hb b3 (by simp)
    have h4 := hb b4 (by simp)
    have h5 := hb b5 (by simp)
    have h6 := hb b6 (by simp)
    have h7 := hb b7 (by simp)
    simp only [fromBlock, toBlock, List.foldl]
    norm_num
    omega

/-- Reading back the serialization of a 64-bit block gives the
block. -/
theorem toBlock_fromBlock (n : Nat) (h : n < 2 ^ 64) : toBlock (fromBlock n) = n := by
  simp only [fromBlock, toBlock, List.foldl]
  norm_num at h ⊢
  omega

/-- Overwriting an entry with its own value is the identity. -/
theorem set_getD_self (l : List Nat) (i : Nat) (h : i < l.length) :
    l.set i (l.getD i 0) = l := by
  induction l generalizing i with
  | nil => simp at h
  | cons a l ih =>
    cases i with
    | zero => simp [List.set, List.getD]
    | succ n =>
      simp only [List.set, List.getD_cons_succ]
      rw [ih n (by simpa using h)]

/-- `set_getD_self` in `getElem?` normal form. -/
theorem set_getElemD_self (l : List Nat) (i : Nat) (h : i < l.length) :
    l.set i (l[i]?.getD 0) = l := by
  rw [← List.getD_eq_getElem?_getD]
  exact set_getD_self l i h

/-- Entries read with a default from within range are members. -/
theorem getD_mem (l : List Nat) (i : Nat) (h : i < l.length) : l.getD i 0 ∈ l := by
  rw [List.getD_eq_getElem l 0 h]
  exact List.getElem_mem h

/-- The well-formedness invariant maintained through the wrap and
unwrap rounds: the `A` register is 64-bit, `R` has 4 entries, and
every entry is 64-bit. -/
def KWInv (st : Nat × List Nat) : Prop :=
  st.1 < 2 ^ 64 ∧ st.2.length = 4 ∧ ∀ b ∈ st.2, b < 2 ^ 64

/-- A fold of invertible steps is undone by folding the inverse steps
over the reversed counter list. -/
theorem foldl_reverse_inverse {σ : Type} (f g : σ → Nat → σ) (P : σ → Prop)
    (T : Nat → Prop)
    (hstep : ∀ st t, P st → T t → g (f st t) t = st ∧ P (f st t)) :
    ∀ (ts : List Nat) (st : σ), P st → (∀ t ∈ ts, T t) →
      ts.reverse.foldl g (ts.foldl f st) = st ∧ P (ts.foldl f st) := by
  intro ts
  induction ts with
  | nil => intro st hP _; exact ⟨rfl, hP⟩
  | cons t ts ih =>
    intro st hP hT
    have h1 := hstep st t hP (hT t (by simp))
    have h2 := ih (f st t) h1.2 (fun u hu => hT u (by simp [hu]))
    constructor
    · rw [List.reverse_cons, List.foldl_append]
      simp only [List.foldl_cons, List.foldl_nil]
      rw [h2.1, h1.1]
    · simpa using h2.2

/-- One unwrap round undoes one wrap round, and the wrap round
preserves the invariant. -/
theorem unwrapStep_wrapStep (enc dec : Nat × Nat → Nat × Nat)
    (hinv : ∀ x : Nat × Nat, x.1 < 2 ^ 64 → x.2 < 2 ^ 64 → dec (enc x) = x)
    (hrange : ∀ x, (enc x).1 < 2 ^ 64 ∧ (enc x).2 < 2 ^ 64)
    (st : Nat × List Nat) (t : Nat) (hP : KWInv st) (hT : t < 2 ^ 64) :
    unwrapStep dec 4 (wrapStep enc 4 st t) t = st ∧ KWInv (wrapStep enc 4 st t) := by
  obtain ⟨hA, hL, hB⟩ := hP
  have hi : (t - 1) % 4 < st.2.length := by rw [hL]; exact Nat.mod_lt _ (by norm_num)
  have hmem : st.2.getD ((t - 1) % 4) 0 ∈ st.2 := getD_mem _ _ hi
  have hri : st.2.getD ((t - 1) % 4) 0 < 2 ^ 64 := hB _ hmem
  have hdec := hinv (st.1, st.2.getD ((t - 1) % 4) 0) hA hri
  have hrange1 := hrange (st.1, st.2.getD ((t - 1) % 4) 0)
  have hgd : ∀ v : Nat, (st.2.set ((t - 1) % 4) v).getD ((t - 1) % 4) 0 = v := by
    intro v
    simp [List.getD, List.getElem?_set_self, hi]
  constructor
  · simp only [wrapStep, unwrapStep, hgd, Nat.xor_cancel_right, Prod.mk.eta]
    rw [hdec]
    simp [List.set_set, set_getD_self _ _ hi, set_getElemD_self _ _ hi]
  · refine ⟨Nat.xor_lt_two_pow hrange1.1 hT, by simpa [wrapStep] using hL, ?_⟩
    intro b hb
    rcases List.mem_or_eq_of_mem_set hb with h | h
    · exact hB b h
    · rw [h]; exact hrange1.2

/-- One wrap round undoes one unwrap round, and the unwrap round
preserves the invariant. -/
theorem wrapStep_unwrapStep (enc dec : Nat × Nat → Nat × Nat)
    (hinv : ∀ x : Nat × Nat, x.1 < 2 ^ 64 → x.2 < 2 ^ 64 → enc (dec x) = x)
    (hrange : ∀ x, (dec x).1 < 2 ^ 64 ∧ (dec x).2 < 2 ^ 64)
    (st : Nat × List Nat) (t : Nat) (hP : KWInv st) (hT : t < 2 ^ 64) :
    wrapStep enc 4 (unwrapStep dec 4 st t) t = st ∧ KWInv (unwrapStep dec 4 st t) := by
  obtain ⟨hA, hL, hB⟩ := hP
  have hi : (t - 1) % 4 < st.2.length := by rw [hL]; exact Nat.mod_lt _ (by norm_num)
  have hmem : st.2.getD ((t - 1) % 4) 0 ∈ st.2 := getD_mem _ _ hi
  have hri : st.2.getD ((t - 1) % 4) 0 < 2 ^ 64 := hB _ hmem
  have henc := hinv (st.1 ^^^ t, st.2.getD ((t - 1) % 4) 0)
    (Nat.xor_lt_two_pow hA hT) hri
  have hrange1 := hrange (st.1 ^^^ t, st.2.getD ((t - 1) % 4) 0)
  have hgd : ∀ v : Nat, (st.2.set ((t - 1) % 4) v).getD ((t - 1) % 4) 0 = v := by
    intro v
    simp [List.getD, List.getElem?_set_self, hi]
  constructor
  · simp only [wrapStep, unwrapStep, hgd, Prod.mk.eta]
    rw [henc]
    simp only [Nat.xor_cancel_right]
    simp [List.set_set, set_getD_self _ _ hi, set_getElemD_self _ _ hi]
  · refine ⟨hrange1.1, by simpa [unwrapStep] using hL, ?_⟩
    intro b hb
    rcases List.mem_or_eq_of_mem_set hb with h | h
    · exact hB b h
    · rw [h]; exact hrange1.2

/-- Taking the first 8 bytes of an 8-byte prefix. -/
theorem take_eight_append (l m : List Nat) (h : l.length = 8) : (l ++ m).take 8 = l := by
  simp [List.take_append, h, List.take_of_length_le]

/-- Dropping an 8-byte prefix. -/
theorem drop_eight_append (l m : List Nat) (h : l.length = 8) : (l ++ m).drop 8 = m := by
  simp [List.drop_append, h, List.drop_eq_nil_of_le]

/-- The blocks of a 32-byte key are well formed. -/
theorem keyBlocks_inv (k : List Nat) (hlen : k.length = 32) (hb : ∀ b ∈ k, b < 256) :
    KWInv (KWIV, keyBlocks k) := by
  refine ⟨by norm_num [KWIV], rfl, ?_⟩
  intro b hbmem
  simp only [keyBlocks, List.mem_cons, List.not_mem_nil, or_false] at hbmem
  have hchunk : ∀ l : List Nat, l.length = 8 → (∀ c ∈ l, c < 256) → toBlock l < 2 ^ 64 :=
    toBlock_lt
  rcases hbmem with h | h | h | h <;> subst h
  · exact hchunk _ (by simp [hlen]) (fun c hc => hb c (List.mem_of_mem_take hc))
  · exact hchunk _ (by simp [hlen]) (fun c hc =>
      hb c (List.mem_of_mem_drop (List.mem_of_mem_take hc)))
  · exact hchunk _ (by simp [hlen]) (fun c hc =>
      hb c (List.mem_of_mem_drop (List.mem_of_mem_take hc)))
  · exact hchunk _ (by simp [hlen]) (fun c hc =>
      hb c (List.mem_of_mem_drop (List.mem_of_mem_take hc)))

/-- Parsing the serialization of four 64-bit blocks gives back the
blocks. -/
theorem keyBlocks_blocksBytes (r : List Nat) (h4 : r.length = 4)
    (hr : ∀ b ∈ r, b < 2 ^ 64) : keyBlocks (blocksBytes r) = r := by
  match r, h4 with
  | [r0, r1, r2, r3], _ =>
    have h0 := hr r0 (by simp)
    have h1 := hr r1 (by simp)
    have h2 := hr r2 (by simp)
    have h3 := hr r3 (by simp)
    simp only [blocksBytes]
    rw [show ([r0, r1, r2, r3].getD 0 0) = r0 from rfl,
      show ([r0, r1, r2, r3].getD 1 0) = r1 from rfl,
      show ([r0, r1, r2, r3].getD 2 0) = r2 from rfl,
      show ([r0, r1, r2, r3].getD 3 0) = r3 from rfl]
    simp only [keyBlocks]
    rw [take_eight_append _ _ (fromBlock_length r0)]
    rw [drop_eight_append _ _ (fromBlock_length r0)]
    rw [take_eight_append _ _ (fromBlock_length r1)]
    rw [show (16 : Nat) = 8 + 8 from rfl, ← List.drop_drop]
    rw [drop_eight_append _ _ (fromBlock_length r0)]
    rw [drop_eight_append _ _ (fromBlock_length r1)]
    rw [take_eight_append _ _ (fromBlock_length r2)]
    rw [show (24 : Nat) = 8 + 16 from rfl, ← List.drop_drop]
    rw [show (16 : Nat) = 8 + 8 from rfl, ← List.drop_drop]
    rw [drop_eight_append _ _ (fromBlock_length r0)]
    rw [drop_eight_append _ _ (fromBlock_length r1)]
    rw [drop_eight_append _ _ (fromBlock_length r2)]
    rw [List.take_of_length_le (le_of_eq (fromBlock_length r3))]
    rw [toBlock_fromBlock _ h0, toBlock_fromBlock _ h1,
      toBlock_fromBlock _ h2, toBlock_fromBlock _ h3]

/-- Serializing the blocks of a 32-byte key gives back the key. -/
theorem blocksBytes_keyBlocks (k : List Nat) (hlen : k.length = 32)
    (hb : ∀ b ∈ k, b < 256) : blocksBytes (keyBlocks k) = k := by
  simp only [keyBlocks, blocksBytes]
  rw [show ∀ a b c d : Nat, ([a, b, c, d].getD 0 0) = a from fun _ _ _ _ => rfl,
    show ∀ a b c d : Nat, ([a, b, c, d].getD 1 0) = b from fun _ _ _ _ => rfl,
    show ∀ a b c d : Nat, ([a, b, c, d].getD 2 0) = c from fun _ _ _ _ => rfl,
    show ∀ a b c d : Nat, ([a, b, c, d].getD 3 0) = d from fun _ _ _ _ => rfl]
  rw [fromBlock_toBlock _ (by simp [hlen]) (fun c hc => hb c (List.mem_of_mem_take hc))]
  rw [fromBlock_toBlock _ (by simp [hlen]) (fun c hc =>
    hb c (List.mem_of_mem_drop (List.mem_of_mem_take hc)))]
  rw [fromBlock_toBlock _ (by simp [hlen]) (fun c hc =>
    hb c (List.mem_of_mem_drop (List.mem_of_mem_take hc)))]
  rw [fromBlock_toBlock _ (by simp [hlen]) (fun c hc =>
    hb c (List.mem_of_mem_drop (List.mem_of_mem_take hc)))]
  have h1 : (k.drop 24).take 8 = k.drop 24 := List.take_of_length_le (by simp [hlen])
  have h2 : (k.drop 16).take 8 ++ k.drop 24 = k.drop 16 := by
    rw [show (24 : Nat) = 16 + 8 from rfl, ← List.drop_drop]
    exact List.take_append_drop 8 (k.drop 16)
  have h3 : (k.drop 8).take 8 ++ k.drop 16 = k.drop 8 := by
    rw [show (16 : Nat) = 8 + 8 from rfl, ← List.drop_drop]
    exact List.take_append_drop 8 (k.drop 8)
  rw [h1, h2, h3]
  exact List.take_append_drop 8 k

/-- All RFC 3394 round counters are 64-bit. -/
theorem range_counters_lt : ∀ t ∈ List.range' 1 (6 * 4), t < 2 ^ 64 := by decide

/-- The unwrap rounds undo the wrap rounds on well-formed states. -/
theorem unwrapCore_wrapCore (enc dec : Nat × Nat → Nat × Nat)
    (hinv : ∀ x : Nat × Nat, x.1 < 2 ^ 64 → x.2 < 2 ^ 64 → dec (enc x) = x)
    (hrange : ∀ x, (enc x).1 < 2 ^ 64 ∧ (enc x).2 < 2 ^ 64)
    (st : Nat × List Nat) (hP : KWInv st) :
    unwrapCore dec 4 (wrapCore enc 4 st) = st ∧ KWInv (wrapCore enc 4 st) :=
  foldl_reverse_inverse (wrapStep enc 4) (unwrapStep dec 4) KWInv (fun t => t < 2 ^ 64)
    (fun st t hP hT => unwrapStep_wrapStep enc dec hinv hrange st t hP hT)
    (List.range' 1 (6 * 4)) st hP range_counters_lt

/-- The wrap rounds undo the unwrap rounds on well-formed states. -/
theorem wrapCore_unwrapCore (enc dec : Nat × Nat → Nat × Nat)
    (hinv : ∀ x : Nat × Nat, x.1 < 2 ^ 64 → x.2 < 2 ^ 64 → enc (dec x) = x)
    (hrange : ∀ x, (dec x).1 < 2 ^ 64 ∧ (dec x).2 < 2 ^ 64)
    (st : Nat × List Nat) (hP : KWInv st) :
    wrapCore enc 4 (unwrapCore dec 4 st) = st ∧ KWInv (unwrapCore dec 4 st) := by
  have h := foldl_reverse_inverse (unwrapStep dec 4) (wrapStep enc 4) KWInv
    (fun t => t < 2 ^ 64)
    (fun st t hP hT => wrapStep_unwrapStep enc dec hinv hrange st t hP hT)
    ((List.range' 1 (6 * 4)).reverse) st hP
    (fun t ht => range_counters_lt t (List.mem_reverse.mp ht))
  rw [List.reverse_reverse] at h
  exact h

/-- Unwrapping an RFC 3394 wrap of a 32-byte key under the same
cipher recovers the key. -/
theorem aesKeyUnwrap_aesKeyWrap (enc dec : Nat × Nat → Nat × Nat)
    (hinv : ∀ x : Nat × Nat, x.1 < 2 ^ 64 → x.2 < 2 ^ 64 → dec (enc x) = x)
    (hrange : ∀ x, (enc x).1 < 2 ^ 64 ∧ (enc x).2 < 2 ^ 64)
    (k : List Nat) (hlen : k.length = 32) (hb : ∀ b ∈ k, b < 256) :
    aesKeyUnwrap dec (aesKeyWrap enc k) = .ok k := by
  have hP0 := keyBlocks_inv k hlen hb
  obtain ⟨hroll, hPw⟩ := unwrapCore_wrapCore enc dec hinv hrange (KWIV, keyBlocks k) hP0
  obtain ⟨hwA, hwL, hwB⟩ := hPw
  simp only [aesKeyWrap, aesKeyUnwrap]
  rw [take_eight_append _ _ (fromBlock_length _)]
  rw [drop_eight_append _ _ (fromBlock_length _)]
  rw [toBlock_fromBlock _ hwA]
  rw [keyBlocks_blocksBytes _ hwL hwB]
  rw [Prod.mk.eta, hroll]
  rw [if_pos rfl]
  rw [blocksBytes_keyBlocks k hlen hb]

/-- Whenever `aes_key_unwrap` succeeds, re-wrapping its output under
the same cipher reproduces the wrapped bytes: unwrap can only return
key material whose wrap is the given input. -/
theorem aesKeyWrap_aesKeyUnwrap (enc dec : Nat × Nat → Nat × Nat)
    (hinv : ∀ x : Nat × Nat, x.1 < 2 ^ 64 → x.2 < 2 ^ 64 → enc (dec x) = x)
    (hrange : ∀ x, (dec x).1 < 2 ^ 64 ∧ (dec x).2 < 2 ^ 64)
    (w : List Nat) (hlen : w.length = 40) (hb : ∀ b ∈ w, b < 256)
    (k : List Nat) (hok : aesKeyUnwrap dec w = .ok k) :
    aesKeyWrap enc k = w := by
  have hP0 : KWInv (toBlock (w.take 8), keyBlocks (w.drop 8)) := by
    refine ⟨toBlock_lt _ (by simp [hlen]) (fun c hc => hb c (List.mem_of_mem_take hc)), ?_⟩
    have := keyBlocks_inv (w.drop 8) (by simp [hlen]) (fun c hc =>
      hb c (List.mem_of_mem_drop hc))
    exact this.2
  obtain ⟨hroll, hPu⟩ := wrapCore_unwrapCore enc dec hinv hrange
    (toBlock (w.take 8), keyBlocks (w.drop 8)) hP0
  obtain ⟨huA, huL, huB⟩ := hPu
  simp only [aesKeyUnwrap] at hok
  by_cases hIV : (unwrapCore dec 4 (toBlock (w.take 8), keyBlocks (w.drop 8))).1 = KWIV
  · rw [if_pos hIV] at hok
    cases hok
    simp only [aesKeyWrap]
    rw [keyBlocks_blocksBytes _ huL huB]
    rw [← hIV, Prod.mk.eta, hroll]
    rw [fromBlock_toBlock _ (by simp [hlen]) (fun c hc => hb c (List.mem_of_mem_take hc))]
    rw [blocksBytes_keyBlocks _ (by simp [hlen]) (fun c hc =>
      hb c (List.mem_of_mem_drop hc))]
    exact List.take_append_drop 8 w
  · rw [if_neg hIV] at hok
    cases hok

/-- The serialization of four blocks is 32 bytes. -/
theorem blocksBytes_length (r : List Nat) : (blocksBytes r).length = 32 := by
  simp [blocksBytes, fromBlock]

/-- The serialization of four blocks is made of byte values. -/
theorem blocksBytes_bytes (r : List Nat) : ∀ b ∈ blocksBytes r, b < 256 := by
  intro b hb
  simp only [blocksBytes, List.mem_append] at hb
  rcases hb with h | h | h | h <;> exact fromBlock_bytes _ b h

/-- A wrapped key is 40 bytes. -/
theorem aesKeyWrap_length (enc : Nat × Nat → Nat × Nat) (k : List Nat) :
    (aesKeyWrap enc k).length = 40 := by
  simp [aesKeyWrap, blocksBytes, fromBlock]

/-- A wrapped key is made of byte values. -/
theorem aesKeyWrap_bytes (enc : Nat × Nat → Nat × Nat) (k : List Nat) :
    ∀ b ∈ aesKeyWrap enc k, b < 256 := by
  intro b hb
  simp only [aesKeyWrap, List.mem_append] at hb
  rcases hb with h | h
  · exact fromBlock_bytes _ b h
  · exact blocksBytes_bytes _ b h

/-- Whatever `unwrap_key` returns successfully is a 32-byte key of
byte values (and the input had to be 40 bytes). -/
theorem unwrap_key_ok_props (D : List Nat → Nat × Nat → Nat × Nat) (master w k : List Nat)
    (hok : unwrap_key D master w = .ok k) :
    w.length = 40 ∧ k.length = 32 ∧ ∀ b ∈ k, b < 256 := by
  simp only [unwrap_key] at hok
  by_cases hw : w.length = 40
  · rw [if_neg (by simp [hw])] at hok
    simp only [aesKeyUnwrap] at hok
    by_cases hIV : (unwrapCore (D master) 4 (toBlock (w.take 8), keyBlocks (w.drop 8))).1 =
        KWIV
    · rw [if_pos hIV] at hok
      cases hok
      exact ⟨hw, blocksBytes_length _, blocksBytes_bytes _⟩
    · rw [if_neg hIV] at hok
      cases hok
  · rw [if_pos (by simp [hw])] at hok
    cases hok

/-- Unwrapping a freshly wrapped key under the same master
succeeds, at the `unwrap_key` level. -/
theorem unwrap_key_wrap (E D : List Nat → Nat × Nat → Nat × Nat) (M k : List Nat)
    (hinv : ∀ x : Nat × Nat, x.1 < 2 ^ 64 → x.2 < 2 ^ 64 → D M (E M x) = x)
    (hrange : ∀ x, (E M x).1 < 2 ^ 64 ∧ (E M x).2 < 2 ^ 64)
    (hlen : k.length = 32) (hb : ∀ b ∈ k, b < 256) :
    unwrap_key D M (aesKeyWrap (E M) k) = .ok k := by
  simp only [unwrap_key]
  rw [if_neg (by simp [aesKeyWrap_length])]
  exact aesKeyUnwrap_aesKeyWrap (E M) (D M) hinv hrange k hlen hb

/-- **C3.** Key-wrap round trip: for a 32-byte document key `k` and a
master key `M` (the AES-256 permutation of the master being any
inverse pair of 64-bit block maps), (1) `wrap_key` succeeds and
`unwrap_key` of the wrapped value under the same master returns
exactly `k`; (2) under any master `M2` whose cipher leaves the
integrity register different from the RFC 3394 IV — which, in the
ideal-cipher reading, is every master other than `M` except with
probability `2^-64` — `unwrap_key` raises `KeyManagementError` and
returns no key bytes; and (3) `unwrap_key` never returns garbage: if
unwrapping the wrapped value under some master `M2` does succeed with
a key `k2`, then `k2` wraps back to the very same 40 bytes under
`M2`. -/
theorem C3_key_wrap_roundtrip
    (E D : List Nat → Nat × Nat → Nat × Nat) (M k : List Nat)
    (hinv : ∀ x : Nat × Nat, x.1 < 2 ^ 64 → x.2 < 2 ^ 64 → D M (E M x) = x)
    (hrange : ∀ x, (E M x).1 < 2 ^ 64 ∧ (E M x).2 < 2 ^ 64)
    (hlen : k.length = 32) (hb : ∀ b ∈ k, b < 256) :
    (wrap_key E M k = .ok (aesKeyWrap (E M) k) ∧
      unwrap_key D M (aesKeyWrap (E M) k) = .ok k) ∧
    (∀ M2 : List Nat,
      (unwrapCore (D M2) 4 (toBlock ((aesKeyWrap (E M) k).take 8),
        keyBlocks ((aesKeyWrap (E M) k).drop 8))).1 ≠ KWIV →
      unwrap_key D M2 (aesKeyWrap (E M) k) = .error .keyManagementError) ∧
    (∀ (M2 k2 : List Nat),
      (∀ x : Nat × Nat, x.1 < 2 ^ 64 → x.2 < 2 ^ 64 → E M2 (D M2 x) = x) →
      (∀ x, (D M2 x).1 < 2 ^ 64 ∧ (D M2 x).2 < 2 ^ 64) →
      unwrap_key D M2 (aesKeyWrap (E M) k) = .ok k2 →
      wrap_key E M2 k2 = .ok (aesKeyWrap (E M) k)) := by
  refine ⟨⟨?_, ?_⟩, ?_, ?_⟩
  · simp [wrap_key, hlen]
  · exact unwrap_key_wrap E D M k hinv hrange hlen hb
  · intro M2 hICV
    simp only [unwrap_key]
    rw [if_neg (by simp [aesKeyWrap_length])]
    simp only [aesKeyUnwrap]
    rw [if_neg hICV]
  · intro M2 k2 hinv2 hrange2 hok
    have hprops := unwrap_key_ok_props D M2 _ _ hok
    simp only [unwrap_key] at hok
    rw [if_neg (by simp [aesKeyWrap_length])] at hok
    have hwrap := aesKeyWrap_aesKeyUnwrap (E M2) (D M2) hinv2 hrange2 _
      (aesKeyWrap_length _ _) (aesKeyWrap_bytes _ _) k2 hok
    rw [wrap_key, if_neg (by simp [hprops.2.1]), hwrap]

/-- A concrete invertible 64-bit block-cipher family for witnesses:
swap the halves and add an offset derived from the master key, modulo
`2 ^ 64`. -/
def offsetEnc : List Nat → Nat × Nat → Nat × Nat :=
  fun mk x => ((x.2 + mk.headD 0) % 2 ^ 64, (x.1 + mk.headD 0) % 2 ^ 64)

/-- The inverse family of `offsetEnc`. -/
def offsetDec : List Nat → Nat × Nat → Nat × Nat :=
  fun mk x => ((x.2 + (2 ^ 64 - mk.headD 0 % 2 ^ 64)) % 2 ^ 64,
    (x.1 + (2 ^ 64 - mk.headD 0 % 2 ^ 64)) % 2 ^ 64)

/-- `offsetDec` inverts `offsetEnc` on 64-bit halves. -/
theorem offsetDec_offsetEnc (mk : List Nat) :
    ∀ x : Nat × Nat, x.1 < 2 ^ 64 → x.2 < 2 ^ 64 → offsetDec mk (offsetEnc mk x) = x := by
  intro x h1 h2
  have hN : (2 : Nat) ^ 64 = 18446744073709551616 := by norm_num
  simp only [offsetEnc, offsetDec, hN] at h1 h2 ⊢
  rw [Prod.ext_iff]
  constructor <;> simp only [] <;> omega

/-- `offsetEnc` inverts `offsetDec` on 64-bit halves. -/
theorem offsetEnc_offsetDec (mk : List Nat) :
    ∀ x : Nat × Nat, x.1 < 2 ^ 64 → x.2 < 2 ^ 64 → offsetEnc mk (offsetDec mk x) = x := by
  intro x h1 h2
  have hN : (2 : Nat) ^ 64 = 18446744073709551616 := by norm_num
  simp only [offsetEnc, offsetDec, hN] at h1 h2 ⊢
  rw [Prod.ext_iff]
  constructor <;> simp only [] <;> omega

/-- `offsetEnc` outputs 64-bit halves. -/
theorem offsetEnc_range (mk : List Nat) :
    ∀ x, (offsetEnc mk x).1 < 2 ^ 64 ∧ (offsetEnc mk x).2 < 2 ^ 64 := by
  intro x
  exact ⟨Nat.mod_lt _ (by norm_num), Nat.mod_lt _ (by norm_num)⟩

/-- `offsetDec` outputs 64-bit halves. -/
theorem offsetDec_range (mk : List Nat) :
    ∀ x, (offsetDec mk x).1 < 2 ^ 64 ∧ (offsetDec mk x).2 < 2 ^ 64 := by
  intro x
  exact ⟨Nat.mod_lt _ (by norm_num), Nat.mod_lt _ (by norm_num)⟩

set_option maxRecDepth 8192 in
/-- **C3 witness.** The round trip at the all-zero 32-byte key under
the concrete cipher, failure of unwrapping under a master with a
different offset, and the no-garbage property discharged through the
successful same-master unwrap. -/
theorem C3_key_wrap_roundtrip_witness :
    ((List.replicate 32 0).length = 32 ∧
      (wrap_key offsetEnc (List.replicate 32 0) (List.replicate 32 0) =
        .ok (aesKeyWrap (offsetEnc (List.replicate 32 0)) (List.replicate 32 0)) ∧
      unwrap_key offsetDec (List.replicate 32 0)
        (aesKeyWrap (offsetEnc (List.replicate 32 0)) (List.replicate 32 0)) =
        .ok (List.replicate 32 0))) ∧
    ((unwrapCore (offsetDec (1 :: List.replicate 31 0)) 4
        (toBlock ((aesKeyWrap (offsetEnc (List.replicate 32 0))
          (List.replicate 32 0)).take 8),
        keyBlocks ((aesKeyWrap (offsetEnc (List.replicate 32 0))
          (List.replicate 32 0)).drop 8))).1 ≠ KWIV ∧
      unwrap_key offsetDec (1 :: List.replicate 31 0)
        (aesKeyWrap (offsetEnc (List.replicate 32 0)) (List.replicate 32 0)) =
        .error .keyManagementError) ∧
    wrap_key offsetEnc (List.replicate 32 0) (List.replicate 32 0) =
      .ok (aesKeyWrap (offsetEnc (List.replicate 32 0)) (List.replicate 32 0)) := by
  have hmain := C3_key_wrap_roundtrip offsetEnc offsetDec (List.replicate 32 0)
    (List.replicate 32 0) (offsetDec_offsetEnc _) (offsetEnc_range _)
    (by decide) (by decide)
  have hICV : (unwrapCore (offsetDec (1 :: List.replicate 31 0)) 4
      (toBlock ((aesKeyWrap (offsetEnc (List.replicate 32 0))
        (List.replicate 32 0)).take 8),
      keyBlocks ((aesKeyWrap (offsetEnc (List.replicate 32 0))
        (List.replicate 32 0)).drop 8))).1 ≠ KWIV := by decide
  refine ⟨⟨by decide, hmain.1⟩, ⟨hICV, hmain.2.1 _ hICV⟩, ?_⟩
  exact hmain.2.2 (List.replicate 32 0) (List.replicate 32 0)
    (offsetEnc_offsetDec _) (offsetDec_range _) hmain.1.2

/-- If every element maps to a success, the fallible map succeeds,
preserves length, and is pointwise the underlying map. -/
theorem mapExcept_ok_of_forall {α β ε : Type} (f : α → Except ε β) (l : List α)
    (h : ∀ x ∈ l, ∃ y, f x = .ok y) :
    ∃ ys : List β, mapExcept f l = .ok ys ∧ ys.length = l.length ∧
      ∀ i (hi : i < l.length) (hi2 : i < ys.length),
        f (l.get ⟨i, hi⟩) = .ok (ys.get ⟨i, hi2⟩) := by
  induction l with
  | nil => exact ⟨[], rfl, rfl, fun i hi _ => by simp at hi⟩
  | cons x xs ih =>
    obtain ⟨y, hy⟩ := h x (by simp)
    obtain ⟨ys, hys, hlen, hcorr⟩ := ih (fun z hz => h z (by simp [hz]))
    refine ⟨y :: ys, ?_, by simp [hlen], ?_⟩
    · simp [mapExcept, hy, hys]
    · intro i hi hi2
      cases i with
      | zero => simpa using hy
      | succ n =>
        simp only [List.get]
        exact hcorr n (by simpa using hi) (by simpa using hi2)

/-- **C1.** `rotate_master_key` is all-or-nothing.  With the AES-256
permutation of the new master `M2` modelled as an inverse pair of
64-bit block maps: (1) for every list of wrapped keys valid under the
current master `M1`, the call succeeds, switches the vault's master
key to `M2`, and returns a list of the same length whose `i`-th entry
unwraps under `M2` to the very document key the `i`-th input unwrapped
to under `M1`; and (2) for arbitrary inputs (valid or not), the call
either ends with master `M2` and a success or with master `M1` and a
`KeyManagementError` — no mixed state is observable after the call,
and on failure the untouched inputs trivially still unwrap under
`M1`. -/
theorem C1_rotate_master_key_atomic
    (E D : List Nat → Nat × Nat → Nat × Nat) (M1 M2 : List Nat)
    (hM2 : M2.length = 32)
    (hinv : ∀ x : Nat × Nat, x.1 < 2 ^ 64 → x.2 < 2 ^ 64 → D M2 (E M2 x) = x)
    (hrange : ∀ x, (E M2 x).1 < 2 ^ 64 ∧ (E M2 x).2 < 2 ^ 64)
    (keys : List (List Nat))
    (hvalid : ∀ w ∈ keys, ∃ k, unwrap_key D M1 w = .ok k) :
    (∃ newKeys : List (List Nat),
      rotate_master_key E D ⟨M1⟩ M2 keys = (⟨M2⟩, .ok newKeys) ∧
      newKeys.length = keys.length ∧
      ∀ i (hi : i < keys.length) (hi2 : i < newKeys.length) (k : List Nat),
        unwrap_key D M1 (keys.get ⟨i, hi⟩) = .ok k →
        unwrap_key D M2 (newKeys.get ⟨i, hi2⟩) = .ok k) ∧
    (∀ (anyNew : List Nat) (anyKeys : List (List Nat)),
      ((rotate_master_key E D ⟨M1⟩ anyNew anyKeys).fst.masterKey = M1 ∧
        ∃ e, (rotate_master_key E D ⟨M1⟩ anyNew anyKeys).snd = .error e) ∨
      ((rotate_master_key E D ⟨M1⟩ anyNew anyKeys).fst.masterKey = anyNew ∧
        ∃ ks, (rotate_master_key E D ⟨M1⟩ anyNew anyKeys).snd = .ok ks)) := by
  constructor
  · obtain ⟨docKeys, hdk, hdklen, hdkcorr⟩ :=
      mapExcept_ok_of_forall (unwrap_key D M1) keys hvalid
    have hwrapok : ∀ x ∈ docKeys, ∃ y, wrap_key E M2 x = .ok y := by
      intro x hx
      obtain ⟨⟨i, hi2⟩, rfl⟩ := List.mem_iff_get.mp hx
      have hi : i < keys.length := by omega
      have hu := hdkcorr i hi hi2
      have hprops := unwrap_key_ok_props D M1 _ _ hu
      refine ⟨aesKeyWrap (E M2) (docKeys.get ⟨i, hi2⟩), ?_⟩
      simp only [wrap_key]
      rw [if_neg (by simpa using hprops.2.1)]
    obtain ⟨newKeys, hnk, hnklen, hnkcorr⟩ :=
      mapExcept_ok_of_forall (wrap_key E M2) docKeys hwrapok
    refine ⟨newKeys, ?_, by omega, ?_⟩
    · simp only [rotate_master_key]
      rw [if_neg (by simp [hM2])]
      simp only [hdk]
      simp only [hnk]
    · intro i hi hi2 k hk
      have hidk : i < docKeys.length := by omega
      have hu := hdkcorr i hi hidk
      have hkeq : k = docKeys.get ⟨i, hidk⟩ := Except.ok.inj (hk.symm.trans hu)
      have hprops := unwrap_key_ok_props D M1 _ _ hu
      have hw := hnkcorr i hidk hi2
      rw [wrap_key, if_neg (by simpa using hprops.2.1)] at hw
      have hweq : newKeys.get ⟨i, hi2⟩ = aesKeyWrap (E M2) (docKeys.get ⟨i, hidk⟩) :=
        (Except.ok.inj hw).symm
      rw [hkeq, hweq]
      exact unwrap_key_wrap E D M2 _ hinv hrange hprops.2.1 hprops.2.2
  · intro anyNew anyKeys
    simp only [rotate_master_key]
    by_cases hlen : anyNew.length = 32
    · rw [if_neg (by simp [hlen])]
      rcases hmu : mapExcept (unwrap_key D M1) anyKeys with e | docKeys
      · exact Or.inl ⟨by simp [hmu], e, by simp [hmu]⟩
      · rcases hmw : mapExcept (wrap_key E anyNew) docKeys with e2 | newWrapped
        · exact Or.inl ⟨by simp [hmu, hmw], .keyManagementError, by simp [hmu, hmw]⟩
        · exact Or.inr ⟨by simp [hmu, hmw], newWrapped, by simp [hmu, hmw]⟩
    · rw [if_pos (by simp [hlen])]
      exact Or.inl ⟨rfl, .keyManagementError, rfl⟩

/-- **C1 witness.** A concrete rotation of one wrapped key from the
all-zero master to the master starting with byte 1, under the
concrete cipher family. -/
theorem C1_rotate_master_key_atomic_witness :
    ((1 :: List.replicate 31 0 : List Nat).length = 32 ∧
      (∀ w ∈ [aesKeyWrap (offsetEnc (List.replicate 32 0)) (List.replicate 32 0)],
        ∃ k, unwrap_key offsetDec (List.replicate 32 0) w = .ok k)) ∧
    (∃ newKeys : List (List Nat),
      rotate_master_key offsetEnc offsetDec ⟨List.replicate 32 0⟩
        (1 :: List.replicate 31 0)
        [aesKeyWrap (offsetEnc (List.replicate 32 0)) (List.replicate 32 0)] =
        (⟨1 :: List.replicate 31 0⟩, .ok newKeys) ∧
      newKeys.length = 1) := by
  have hvalid : ∀ w ∈ [aesKeyWrap (offsetEnc (List.replicate 32 0)) (List.replicate 32 0)],
      ∃ k, unwrap_key offsetDec (List.replicate 32 0) w = .ok k := by
    intro w hw
    rw [List.mem_singleton] at hw
    subst hw
    exact ⟨List.replicate 32 0, unwrap_key_wrap offsetEnc offsetDec _ _
      (offsetDec_offsetEnc _) (offsetEnc_range _) (by decide) (by decide)⟩
  have hmain := C1_rotate_master_key_atomic offsetEnc offsetDec
    (List.replicate 32 0) (1 :: List.replicate 31 0) (by decide)
    (offsetDec_offsetEnc _) (offsetEnc_range _)
    [aesKeyWrap (offsetEnc (List.replicate 32 0)) (List.replicate 32 0)] hvalid
  obtain ⟨newKeys, hrot, hlen, _⟩ := hmain.1
  exact ⟨⟨by decide, hvalid⟩, newKeys, hrot, by simpa using hlen⟩

/-! ## Container parsing (`crypto/decrypt.py`)

Byte strings are `List Nat`.  `parse_spdf` decodes the header bytes
as UTF-8 and feeds them to `json.loads`; we model the JSON reader
directly on bytes.  It is exact on ASCII input without string
escapes and with integer numerals — every input exercised by the
theorems below — and rejects the rest (Python would also accept
escapes, non-integer numbers and multi-byte UTF-8 inside strings).
`parse_spdf` then reads each header field with `header_dict.get`;
when the header is valid JSON but not an object, that attribute
access raises an uncaught `AttributeError`, which the model records
as the distinguished error `ParseErr.attributeError`. -/

/-- Errors escaping `parse_spdf`: the `FormatError`s it raises, and
the `AttributeError` that escapes it on a non-object JSON header. -/
inductive ParseErr where
  | formatError (msg : String)
  | attributeError
deriving DecidableEq

/-- JSON values. -/
inductive JVal where
  | jnull
  | jbool (b : Bool)
  | jnum (n : Int)
  | jstr (s : List Nat)
  | jarr (xs : List JVal)
  | jobj (fields : List (List Nat × JVal))

/-- JSON whitespace bytes (space, tab, newline, carriage return). -/
def skipWs : List Nat → List Nat
  | [] => []
  | b :: bs => if b = 32 ∨ b = 9 ∨ b = 10 ∨ b = 13 then skipWs bs else b :: bs

/-- A JSON string body after the opening quote: plain bytes up to the
closing quote; escapes and control bytes are rejected. -/
def readStr : List Nat → Option (List Nat × List Nat)
  | [] => none
  | b :: bs =>
    if b = 34 then some ([], bs)
    else if b = 92 ∨ b < 32 ∨ 127 ≤ b then none
    else
      match readStr bs with
      | some (s, rest) => some (b :: s, rest)
      | none => none

/-- The longest digit prefix. -/
def readDigits : List Nat → List Nat × List Nat
  | [] => ([], [])
  | b :: bs =>
    if 48 ≤ b ∧ b ≤ 57 then
      let p := readDigits bs
      (b :: p.1, p.2)
    else ([], b :: bs)

/-- The value of a digit string. -/
def digitsToNat (ds : List Nat) : Nat := ds.foldl (fun a d => a * 10 + (d - 48)) 0

mutual

/-- One JSON value and the remaining input. -/
def readVal : Nat → List Nat → Option (JVal × List Nat)
  | 0, _ => none
  | fuel + 1, l =>
    match skipWs l with
    | [] => none
    | b :: bs =>
      if b = 123 then readObj fuel (skipWs bs)
      else if b = 91 then readArr fuel (skipWs bs)
      else if b = 34 then
        match readStr bs with
        | some (s, rest) => some (.jstr s, rest)
        | none => none
      else if b = 116 then
        match bs with
        | 114 :: 117 :: 101 :: rest => some (.jbool true, rest)
        | _ => none
      else if b = 102 then
        match bs with
        | 97 :: 108 :: 115 :: 101 :: rest => some (.jbool false, rest)
        | _ => none
      else if b = 110 then
        match bs with
        | 117 :: 108 :: 108 :: rest => some (.jnull, rest)
        | _ => none
      else if b = 45 then
        match readDigits bs with
        | ([], _) => none
        | (ds, rest) => some (.jnum (-(digitsToNat ds : Int)), rest)
      else if 48 ≤ b ∧ b ≤ 57 then
        match readDigits (b :: bs) with
        | (ds, rest) => some (.jnum (digitsToNat ds : Int), rest)
      else none

/-- A JSON object after its opening brace (and whitespace). -/
def readObj : Nat → List Nat → Option (JVal × List Nat)
  | 0, _ => none
  | fuel + 1, l =>
    match l with
    | 125 :: rest => some (.jobj [], rest)
    | _ => readMembers fuel l []

/-- The members of a JSON object. -/
def readMembers : Nat → List Nat → List (List Nat × JVal) →
    Option (JVal × List Nat)
  | 0, _, _ => none
  | fuel + 1, l, acc =>
    match skipWs l with
    | 34 :: bs =>
      match readStr bs with
      | none => none
      | some (key, rest1) =>
        match skipWs rest1 with
        | 58 :: rest2 =>
          match readVal fuel rest2 with
          | none => none
          | some (v, rest3) =>
            match skipWs rest3 with
            | 44 :: rest4 => readMembers fuel rest4 (acc ++ [(key, v)])
            | 125 :: rest4 => some (.jobj (acc ++ [(key, v)]), rest4)
            | _ => none
        | _ => none
    | _ => none

/-- A JSON array after its opening bracket (and whitespace). -/
def readArr : Nat → List Nat → Option (JVal × List Nat)
  | 0, _ => none
  | fuel + 1, l =>
    match l with
    | 93 :: rest => some (.jarr [], rest)
    | _ => readElems fuel l []

/-- The elements of a JSON array. -/
def readElems : Nat → List Nat → List JVal → Option (JVal × List Nat)
  | 0, _, _ => none
  | fuel + 1, l, acc =>
    match readVal fuel l with
    | none => none
    | some (v, rest) =>
      match skipWs rest with
      | 44 :: rest2 => readElems fuel rest2 (acc ++ [v])
      | 93 :: rest2 => some (.jarr (acc ++ [v]), rest2)
      | _ => none

end

/-- `json.loads` on bytes: one value, then only whitespace. -/
def jsonLoads (l : List Nat) : Option JVal :=
  match readVal (l.length + 1) l with
  | none => none
  | some (v, rest) => if skipWs rest = [] then some v else none

/-- The code points of an ASCII string, for writing byte strings. -/
def asciiBytes (s : String) : List Nat := s.toList.map Char.toNat

/-- `dict.get(key, default)` for a parsed JSON object; with duplicate
keys the last occurrence wins, as in a Python dict built by `json`. -/
def objGet (fields : List (List Nat × JVal)) (key : List Nat) (dflt : JVal) : JVal :=
  match fields.reverse.find? (fun kv => kv.1 == key) with
  | some kv => kv.2
  | none => dflt

/-- The parsed `SpdfHeader` dataclass.  Field values are the raw JSON
values returned by `header_dict.get` — the code does not check their
types. -/
structure SpdfHeader where
  spdfVersion : JVal
  docId : JVal
  orgId : JVal
  title : JVal
  serverUrl : JVal
  createdAt : JVal
  publicKey : JVal
  permissions : JVal
  watermark : JVal
  metadata : JVal

/-- The parsed `SpdfFile` dataclass. -/
structure SpdfFile where
  version : Nat
  flags : Nat
  header : SpdfHeader
  wrappedKey : List Nat
  nonce : List Nat
  ciphertext : List Nat
  authTag : List Nat
  signature : List Nat
  unsignedData : List Nat

/-- `"SPDF"`. -/
def MAGICBytes : List Nat := [83, 80, 68, 70]

/-- `struct.unpack('>H', data[5:7])`. -/
def flagsOf (d : List Nat) : Nat := 256 * d.getD 5 0 + d.getD 6 0

/-- `struct.unpack('>I', data[7:11])`. -/
def headerLenOf (d : List Nat) : Nat :=
  16777216 * d.getD 7 0 + 65536 * d.getD 8 0 + 256 * d.getD 9 0 + d.getD 10 0

/-- `data[11 : 11 + header_len]`. -/
def headerBytesOf (d : List Nat) : List Nat := (d.drop 11).take (headerLenOf d)

/-- The `SpdfHeader` built by the `header_dict.get` calls. -/
def buildHeader (fields : List (List Nat × JVal)) : SpdfHeader where
  spdfVersion := objGet fields (asciiBytes "spdf_version") (.jstr (asciiBytes "1.0"))
  docId := objGet fields (asciiBytes "doc_id") (.jstr [])
  orgId := objGet fields (asciiBytes "org_id") (.jstr [])
  title := objGet fields (asciiBytes "title") (.jstr [])
  serverUrl := objGet fields (asciiBytes "server_url") (.jstr [])
  createdAt := objGet fields (asciiBytes "created_at") (.jstr [])
  publicKey := objGet fields (asciiBytes "public_key") (.jstr [])
  permissions := objGet fields (asciiBytes "permissions") (.jobj [])
  watermark := objGet fields (asciiBytes "watermark") (.jobj [])
  metadata := objGet fields (asciiBytes "metadata") (.jobj [])

/-- `parse_spdf(data)`, byte for byte and check for check in the order
of the source. -/
def parse_spdf (d : List Nat) : Except ParseErr SpdfFile :=
  if d.length < 11 + 40 + 12 + 16 + 64 then .error (.formatError "File too short")
  else if d.take 4 ≠ MAGICBytes then .error (.formatError "Invalid magic bytes")
  else if d.getD 4 0 ≠ 1 then .error (.formatError "Unsupported version")
  else if d.length < 11 + headerLenOf d then .error (.formatError "File too short for header")
  else
    match jsonLoads (headerBytesOf d) with
    | none => .error (.formatError "Invalid header JSON")
    | some (.jobj fields) =>
      if d.length < 11 + headerLenOf d + 40 then
        .error (.formatError "File too short for wrapped key")
      else if d.length < 11 + headerLenOf d + 40 + 12 then
        .error (.formatError "File too short for nonce")
      else if d.length < 11 + headerLenOf d + 52 + 16 + 64 then
        .error (.formatError "File too short for tag and signature")
      else if d.length - 64 - 16 ≤ 11 + headerLenOf d + 52 then
        .error (.formatError "Invalid ciphertext length")
      else
        .ok
          { version := d.getD 4 0
            flags := flagsOf d
            header := buildHeader fields
            wrappedKey := (d.drop (11 + headerLenOf d)).take 40
            nonce := (d.drop (11 + headerLenOf d + 40)).take 12
            ciphertext := (d.drop (11 + headerLenOf d + 52)).take
              (d.length - 64 - 16 - (11 + headerLenOf d + 52))
            authTag := (d.drop (d.length - 64 - 16)).take 16
            signature := d.drop (d.length - 64)
            unsignedData := d.take (d.length - 64) }
    | some _ => .error .attributeError

/-- A 143-byte input whose 1-byte header region is the ASCII digit
`1`: magic, version 1, flags 0, header length 1, header `"1"`, then
131 zero bytes of padding. -/
def c4FailingInput : List Nat :=
  [83, 80, 68, 70, 1, 0, 0, 0, 0, 0, 1, 49] ++ List.replicate 131 0

set_option maxRecDepth 16384 in
/-- **C4.** Minimum-size rejection fails as stated: `parse_spdf`'s own
size check uses 143 (`11 + 40 + 12 + 16 + 64`), not the 145 of
`format.py`'s `MIN_FILE_SIZE`, and on this 143-byte input — shorter
than 145 bytes — the function does not raise `FormatError`: its header
region parses as the JSON number `1`, and the following
`header_dict.get` call raises an uncaught `AttributeError`
(`'int' object has no attribute 'get'`). -/
theorem C4_minimum_size_attribute_error :
    c4FailingInput.length = 143 ∧
    parse_spdf c4FailingInput = .error .attributeError :=
  ⟨rfl, rfl⟩

/-! ## Container assembly (`crypto/encrypt.py`)

`create_spdf` draws a fresh document key and nonce, wraps the key,
serializes the header with `json.dumps` and encrypts with
AES-256-GCM; the model takes the drawn values (`docKey`, `nonce`),
the wrapped key, the serialized header bytes, and the AES-GCM
function (`aesgcm(key, nonce, pt) = ciphertext ‖ tag`, 16-byte tag)
as explicit parameters, and the Ed25519 signing as an abstract
`signFn` applied to the abstract SHA-256 `sha`, mirroring
`sign_data`. -/

/-- `struct.pack('>H', n)`. -/
def pack16 (n : Nat) : List Nat := [n / 256 % 256, n % 256]

/-- `struct.pack('>I', n)`. -/
def pack32 (n : Nat) : List Nat :=
  [n / 16777216 % 256, n / 65536 % 256, n / 256 % 256, n % 256]

/-- `build_flags(...)`: or of the five flag bits (distinct powers of
two, so the or is a sum). -/
def build_flags (deviceBinding offlineAllowed printAllowed copyAllowed
    watermarkEnabled : Bool) : Nat :=
  (if deviceBinding then 1 else 0) + (if offlineAllowed then 2 else 0) +
    (if printAllowed then 4 else 0) + (if copyAllowed then 8 else 0) +
    (if watermarkEnabled then 16 else 0)

/-- `sanitize_pdf` on the modelled path: without PyMuPDF (or on an
internal failure) the function returns its input unchanged. -/
def sanitize_pdf (pdfBytes : List Nat) : List Nat := pdfBytes

/-- `encrypt_pdf(pdf_bytes, doc_key)` with the drawn nonce made
explicit: split `ciphertext ‖ tag` after the AEAD call. -/
def encrypt_pdf (aesgcm : List Nat → List Nat → List Nat → List Nat)
    (docKey nonce pt : List Nat) : List Nat × List Nat × List Nat :=
  let cwt := aesgcm docKey nonce pt
  (nonce, cwt.take (cwt.length - 16), cwt.drop (cwt.length - 16))

/-- `sign_data(data, key_manager)`: Ed25519 over `SHA256(data)`. -/
def sign_data {PK : Type} (sha : List Nat → List Nat) (signFn : PK → List Nat → List Nat)
    (pk : PK) (data : List Nat) : List Nat :=
  signFn pk (sha data)

/-- The unsigned portion assembled by `create_spdf` (steps 1-6):
sanitize, encrypt, build flags, and concatenate the fields in wire
order. -/
def create_unsigned (aesgcm : List Nat → List Nat → List Nat → List Nat)
    (docKey wrappedKey nonce headerJson : List Nat)
    (allowPrint allowCopy watermarkEnabled : Bool) (offlineDays : Nat)
    (pdfBytes : List Nat) : List Nat :=
  let sanitized := sanitize_pdf pdfBytes
  let ec := encrypt_pdf aesgcm docKey nonce sanitized
  let flags := build_flags true (decide (0 < offlineDays)) allowPrint allowCopy
    watermarkEnabled
  MAGICBytes ++ ([1] ++ (pack16 flags ++ (pack32 headerJson.length ++
    (headerJson ++ (wrappedKey ++ (ec.1 ++ (ec.2.1 ++ ec.2.2)))))))

/-- `create_spdf(...)`: sign the unsigned bytes (steps 7-8) and
append the 64-byte signature. -/
def create_spdf {PK : Type} (aesgcm : List Nat → List Nat → List Nat → List Nat)
    (sha : List Nat → List Nat) (signFn : PK → List Nat → List Nat) (pk : PK)
    (docKey wrappedKey nonce headerJson : List Nat)
    (allowPrint allowCopy watermarkEnabled : Bool) (offlineDays : Nat)
    (pdfBytes : List Nat) : List Nat :=
  let unsigned := create_unsigned aesgcm docKey wrappedKey nonce headerJson
    allowPrint allowCopy watermarkEnabled offlineDays pdfBytes
  unsigned ++ sign_data sha signFn pk unsigned

/-- **C5.** Container layout: any container assembled by
`create_spdf` — for any payload, header bytes, drawn key and nonce,
and any AEAD and signer of the right shapes (AES-GCM appends a 16-byte
tag to a same-length ciphertext, Ed25519 signatures are 64 bytes) —
starts with the 4 magic bytes `SPDF` followed by the version byte
`0x01`, has total length exactly
`4+1+2+4+len(header_json)+40+12+len(plaintext)+16+64`, and is the
concatenation MAGIC ‖ VERSION ‖ FLAGS(2, big-endian) ‖ HEADER_LEN(4,
big-endian) ‖ HEADER_JSON ‖ WRAPPED_KEY ‖ NONCE ‖ CIPHERTEXT ‖
AUTH_TAG ‖ SIGNATURE in that order. -/
theorem C5_container_layout {PK : Type}
    (aesgcm : List Nat → List Nat → List Nat → List Nat)
    (sha : List Nat → List Nat) (signFn : PK → List Nat → List Nat) (pk : PK)
    (docKey wrappedKey nonce headerJson : List Nat)
    (allowPrint allowCopy watermarkEnabled : Bool) (offlineDays : Nat)
    (pdfBytes : List Nat) (c : List Nat)
    (hc : c = create_spdf aesgcm sha signFn pk docKey wrappedKey nonce headerJson
      allowPrint allowCopy watermarkEnabled offlineDays pdfBytes)
    (hw : wrappedKey.length = 40) (hn : nonce.length = 12)
    (hgcm : (aesgcm docKey nonce pdfBytes).length = pdfBytes.length + 16)
    (hsig : ∀ h : List Nat, (signFn pk h).length = 64) :
    c.take 5 = MAGICBytes ++ [1] ∧
    c.length = 4 + 1 + 2 + 4 + headerJson.length + 40 + 12 + pdfBytes.length + 16 + 64 ∧
    ∃ ct tag sig : List Nat,
      ct.length = pdfBytes.length ∧ tag.length = 16 ∧ sig.length = 64 ∧
      c = MAGICBytes ++ ([1] ++ (pack16 (build_flags true (decide (0 < offlineDays))
        allowPrint allowCopy watermarkEnabled) ++ (pack32 headerJson.length ++
        (headerJson ++ (wrappedKey ++ (nonce ++ (ct ++ (tag ++ sig)))))))) := by
  subst hc
  simp only [create_spdf, create_unsigned, encrypt_pdf, sanitize_pdf, sign_data]
  have hct : ((aesgcm docKey nonce pdfBytes).take
      ((aesgcm docKey nonce pdfBytes).length - 16)).length = pdfBytes.length := by
    simp [hgcm]
  have htag : ((aesgcm docKey nonce pdfBytes).drop
      ((aesgcm docKey nonce pdfBytes).length - 16)).length = 16 := by
    simp [hgcm]
  refine ⟨?_, ?_, ?_⟩
  · simp [MAGICBytes, List.take_append, pack16]
  · simp only [List.length_append, List.length_cons, List.length_nil, hct, htag, hw, hn,
      hsig, MAGICBytes, pack16, pack32]
    omega
  · refine ⟨(aesgcm docKey nonce pdfBytes).take ((aesgcm docKey nonce pdfBytes).length - 16),
      (aesgcm docKey nonce pdfBytes).drop ((aesgcm docKey nonce pdfBytes).length - 16),
      signFn pk (sha (MAGICBytes ++ ([1] ++ (pack16 (build_flags true
        (decide (0 < offlineDays)) allowPrint allowCopy watermarkEnabled) ++
        (pack32 headerJson.length ++ (headerJson ++ (wrappedKey ++ (nonce ++
        ((aesgcm docKey nonce pdfBytes).take ((aesgcm docKey nonce pdfBytes).length - 16) ++
        (aesgcm docKey nonce pdfBytes).drop
          ((aesgcm docKey nonce pdfBytes).length - 16)))))))))),
      hct, htag, hsig _, ?_⟩
    simp only [List.append_assoc]

/-- **C5 witness.** A concrete assembly: 2-byte payload, 2-byte
header, zero wrapped key and nonce, identity hash, constant signer. -/
theorem C5_container_layout_witness :
    ((List.replicate 40 0 : List Nat).length = 40 ∧
      (List.replicate 12 0 : List Nat).length = 12 ∧
      ((fun (_ _ pt : List Nat) => pt ++ List.replicate 16 0) [] (List.replicate 12 0)
        [7, 8]).length = [7, 8].length + 16 ∧
      (∀ h : List Nat, ((fun (_ : Nat) (_ : List Nat) => List.replicate 64 0) 0 h).length
        = 64)) ∧
    (create_spdf (fun _ _ pt => pt ++ List.replicate 16 0) id
      (fun _ _ => List.replicate 64 0) (0 : Nat) [] (List.replicate 40 0)
      (List.replicate 12 0) [123, 125] false false true 0 [7, 8]).length =
      4 + 1 + 2 + 4 + [123, 125].length + 40 + 12 + [7, 8].length + 16 + 64 :=
  ⟨⟨by simp, by simp, by simp, fun h => by simp⟩,
    (C5_container_layout (fun _ _ pt => pt ++ List.replicate 16 0) id
      (fun _ _ => List.replicate 64 0) (0 : Nat) [] (List.replicate 40 0)
      (List.replicate 12 0) [123, 125] false false true 0 [7, 8] _ rfl
      (by simp) (by simp) (by simp) (fun h => by simp)).2.1⟩

/-! ## Signature verification (`crypto/decrypt.py` `verify_signature`)

`verify_signature` loads the Ed25519 public key from the PEM text in
the container's own header, hashes `unsigned_data` with SHA-256 and
checks the trailing 64 bytes against it; every failure inside —
including the `AttributeError` of a non-string `public_key` field and
a PEM that does not load as an Ed25519 key — is caught and re-raised
as `SignatureError`.  `pemLoad` models `load_pem_public_key` plus the
`isinstance(..., Ed25519PublicKey)` check (`none` = failure); `sha`
models SHA-256; `verifyFn` models `Ed25519PublicKey.verify`. -/

/-- `SignatureError`. -/
inductive SigErr where
  | signatureError
deriving DecidableEq

/-- `verify_signature(spdf)`. -/
def verify_signature {PK : Type} (pemLoad : List Nat → Option PK)
    (sha : List Nat → List Nat) (verifyFn : PK → List Nat → List Nat → Bool)
    (s : SpdfFile) : Except SigErr Bool :=
  match s.header.publicKey with
  | .jstr pem =>
    match pemLoad pem with
    | none => .error .signatureError
    | some pk =>
      if verifyFn pk s.signature (sha s.unsignedData) then .ok true
      else .error .signatureError
  | _ => .error .signatureError

/-- The parse-then-verify pipeline of `decrypt_spdf` up to signature
verification: `true` when the container parses and its signature
verifies, `false` on any rejection. -/
def parse_and_verify {PK : Type} (pemLoad : List Nat → Option PK)
    (sha : List Nat → List Nat) (verifyFn : PK → List Nat → List Nat → Bool)
    (d : List Nat) : Bool :=
  match parse_spdf d with
  | .error _ => false
  | .ok s =>
    match verify_signature pemLoad sha verifyFn s with
    | .error _ => false
    | .ok b => b

/-- What a successful `parse_spdf` guarantees: the input is at least
143 bytes, the header fits strictly before the tag-and-signature
trailer, `unsigned_data` is everything but the last 64 bytes, the
signature is the last 64 bytes, and the header was built from the
JSON object read from the header region. -/
theorem parse_ok_facts (d : List Nat) (s : SpdfFile) (hp : parse_spdf d = .ok s) :
    143 ≤ d.length ∧
    11 + headerLenOf d + 52 < d.length - 64 - 16 ∧
    s.unsignedData = d.take (d.length - 64) ∧
    s.signature = d.drop (d.length - 64) ∧
    ∃ fields, jsonLoads (headerBytesOf d) = some (.jobj fields) ∧
      s.header = buildHeader fields := by
  simp only [parse_spdf] at hp
  by_cases h1 : d.length < 11 + 40 + 12 + 16 + 64
  · rw [if_pos h1] at hp
    exact absurd hp (by simp)
  rw [if_neg h1] at hp
  by_cases h2 : d.take 4 = MAGICBytes
  case neg =>
    rw [if_pos h2] at hp
    exact absurd hp (by simp)
  rw [if_neg (not_not_intro h2)] at hp
  by_cases h3 : d.getD 4 0 = 1
  case neg =>
    rw [if_pos h3] at hp
    exact absurd hp (by simp)
  rw [if_neg (not_not_intro h3)] at hp
  by_cases h4 : d.length < 11 + headerLenOf d
  · rw [if_pos h4] at hp
    exact absurd hp (by simp)
  rw [if_neg h4] at hp
  rcases hj : jsonLoads (headerBytesOf d) with _ | jv
  · simp only [hj] at hp
    exact absurd hp (by simp)
  cases jv with
  | jobj fields =>
    simp only [hj] at hp
    by_cases h5 : d.length < 11 + headerLenOf d + 40
    · rw [if_pos h5] at hp
      exact absurd hp (by simp)
    rw [if_neg h5] at hp
    by_cases h6 : d.length < 11 + headerLenOf d + 40 + 12
    · rw [if_pos h6] at hp
      exact absurd hp (by simp)
    rw [if_neg h6] at hp
    by_cases h7 : d.length < 11 + headerLenOf d + 52 + 16 + 64
    · rw [if_pos h7] at hp
      exact absurd hp (by simp)
    rw [if_neg h7] at hp
    by_cases h8 : d.length - 64 - 16 ≤ 11 + headerLenOf d + 52
    · rw [if_pos h8] at hp
      exact absurd hp (by simp)
    rw [if_neg h8] at hp
    obtain rfl := (Except.ok.inj hp)
    refine ⟨by omega, by omega, rfl, rfl, fields, rfl, rfl⟩
  | jnull => simp only [hj] at hp; exact absurd hp (by simp)
  | jbool b => simp only [hj] at hp; exact absurd hp (by simp)
  | jnum n => simp only [hj] at hp; exact absurd hp (by simp)
  | jstr t => simp only [hj] at hp; exact absurd hp (by simp)
  | jarr xs => simp only [hj] at hp; exact absurd hp (by simp)

/-! ### Bit flips and prefix congruence -/

/-- Flip bit `k` of the byte at position `i`. -/
def flipBit (d : List Nat) (i k : Nat) : List Nat :=
  d.set i (d.getD i 0 ^^^ 2 ^ k)

/-- Flipping a bit changes the byte. -/
theorem flip_ne_byte (b k : Nat) : b ^^^ 2 ^ k ≠ b := by
  intro h
  have h3 : (2 ^ k ^^^ b) ^^^ b = b ^^^ b := by rw [Nat.xor_comm (2 ^ k) b, h]
  rw [Nat.xor_cancel_right, Nat.xor_self] at h3
  have : 0 < 2 ^ k := by positivity
  omega

/-- A flip keeps the length. -/
theorem flipBit_length (d : List Nat) (i k : Nat) : (flipBit d i k).length = d.length :=
  List.length_set ..

/-- Two lists agreeing on their first `n` entries agree at every
position below `n`. -/
theorem getD_congr_of_take_eq (d1 d2 : List Nat) (n j : Nat)
    (h : d1.take n = d2.take n) (hj : j < n) : d1.getD j 0 = d2.getD j 0 := by
  have h1 := congrArg (fun l => l[j]?) h
  simp only [List.getElem?_take, hj, if_pos] at h1
  simp [List.getD, h1]

/-- Two lists agreeing on their first `n` entries have the same
`(drop a).take b` slice whenever the slice lies inside the prefix. -/
theorem drop_take_congr_of_take_eq (d1 d2 : List Nat) (n a b : Nat)
    (h : d1.take n = d2.take n) (hab : a + b ≤ n) :
    (d1.drop a).take b = (d2.drop a).take b := by
  apply List.ext_getElem?
  intro j
  rw [List.getElem?_take, List.getElem?_take]
  by_cases hj : j < b
  · rw [if_pos hj, if_pos hj]
    have h1 := congrArg (fun l => l[a + j]?) h
    simp only [List.getElem?_take, if_pos (by omega : a + j < n)] at h1
    simpa [List.getElem?_drop] using h1
  · rw [if_neg hj, if_neg hj]

/-- A flip at a position below `n` changes the `n`-prefix. -/
theorem take_flipBit_ne (d : List Nat) (i k n : Nat) (hi : i < n) (hlen : i < d.length) :
    (flipBit d i k).take n ≠ d.take n := by
  intro h
  have h1 := congrArg (fun l => l[i]?) h
  simp only [List.getElem?_take, if_pos hi] at h1
  rw [flipBit, List.getElem?_set] at h1
  simp only [if_pos rfl, if_pos hlen] at h1
  rw [List.getElem?_eq_getElem hlen] at h1
  have h2 : d.getD i 0 = d[i] := by simp [List.getD, List.getElem?_eq_getElem hlen]
  have := Option.some.inj h1
  rw [h2] at this
  exact flip_ne_byte _ _ this

/-- A flip at a position at or beyond `n` keeps the `n`-prefix. -/
theorem take_flipBit_eq (d : List Nat) (i k n : Nat) (hi : n ≤ i) :
    (flipBit d i k).take n = d.take n := by
  rw [flipBit, List.set_take]
  apply List.set_eq_of_length_le
  simp
  omega

/-- A flip at a position at or beyond `n` (and in range) changes the
`n`-suffix. -/
theorem drop_flipBit_ne (d : List Nat) (i k n : Nat) (hi : n ≤ i) (hlen : i < d.length) :
    (flipBit d i k).drop n ≠ d.drop n := by
  intro h
  have h1 := congrArg (fun l => l[i - n]?) h
  simp only [List.getElem?_drop] at h1
  rw [show n + (i - n) = i from by omega] at h1
  rw [flipBit, List.getElem?_set] at h1
  simp only [if_pos rfl, if_pos hlen] at h1
  rw [List.getElem?_eq_getElem hlen] at h1
  have h2 : d.getD i 0 = d[i] := by simp [List.getD, List.getElem?_eq_getElem hlen]
  have := Option.some.inj h1
  rw [h2] at this
  exact flip_ne_byte _ _ this

/-- **C10.** `verify_signature` trusts the public key embedded in the
container's own header and no caller-supplied organization key enters
the check: for every well-formed container and every keypair (any
`pk` a PEM loader resolves from the header's `public_key` string),
if the trailing 64 bytes are that keypair's signature over SHA-256 of
all preceding bytes, verification succeeds.  Verification thereby
establishes only internal consistency of the container — whoever
controls the header controls which key is checked. -/
theorem C10_verify_trusts_embedded_key {PK : Type}
    (pemLoad : List Nat → Option PK) (sha : List Nat → List Nat)
    (verifyFn : PK → List Nat → List Nat → Bool) (signFn : PK → List Nat → List Nat)
    (d : List Nat) (s : SpdfFile) (pem : List Nat) (pk : PK)
    (hparse : parse_spdf d = .ok s)
    (hpk : s.header.publicKey = .jstr pem)
    (hload : pemLoad pem = some pk)
    (hverify : ∀ p sig h, verifyFn p sig h = true ↔ sig = signFn p h)
    (hsig : s.signature = signFn pk (sha s.unsignedData)) :
    verify_signature pemLoad sha verifyFn s = .ok true ∧
    parse_and_verify pemLoad sha verifyFn d = true := by
  have hv : verify_signature pemLoad sha verifyFn s = .ok true := by
    simp only [verify_signature, hpk, hload]
    rw [if_pos ((hverify _ _ _).mpr hsig)]
  exact ⟨hv, by simp only [parse_and_verify, hparse, hv]⟩

/-! ### A concrete container for the pipeline witnesses -/

/-- An all-default header record. -/
def emptyHeader : SpdfHeader :=
  ⟨.jnull, .jnull, .jnull, .jnull, .jnull, .jnull, .jnull, .jnull, .jnull, .jnull⟩

/-- An all-default parsed-file record. -/
def emptySpdf : SpdfFile := ⟨0, 0, emptyHeader, [], [], [], [], [], []⟩

/-- The PEM text used by the concrete keypair. -/
def pipePem : List Nat := asciiBytes "PK1"

/-- A minimal header `\x7b"public_key":"PK1"\x7d`. -/
def pipeHeaderJson : List Nat := asciiBytes "\x7b\"public_key\":\"PK1\"\x7d"

/-- A constant concrete signer. -/
def pipeSignFn : Nat → List Nat → List Nat := fun _ _ => List.replicate 64 0

/-- The verifier agreeing with `pipeSignFn`. -/
def pipeVerifyFn : Nat → List Nat → List Nat → Bool :=
  fun p sig h => sig == pipeSignFn p h

/-- The PEM loader resolving exactly `pipePem`. -/
def pipePemLoad : List Nat → Option Nat :=
  fun pem => if pem == pipePem then some 0 else none

/-- A length-preserving concrete AEAD. -/
def pipeGcm : List Nat → List Nat → List Nat → List Nat :=
  fun _ _ pt => pt ++ List.replicate 16 0

/-- A concrete container assembled by `create_spdf`. -/
def pipeContainer : List Nat :=
  create_spdf pipeGcm id pipeSignFn 0 [] (List.replicate 40 0) (List.replicate 12 0)
    pipeHeaderJson false false true 0 [7]

/-- The parse of `pipeContainer`. -/
def pipeParsed : SpdfFile := (parse_spdf pipeContainer).toOption.getD emptySpdf

set_option maxRecDepth 32768 in
/-- **C10 witness.** The concrete container parses, carries `pipePem`
in its header, and its pipeline verification succeeds. -/
theorem C10_verify_trusts_embedded_key_witness :
    (parse_spdf pipeContainer = .ok pipeParsed ∧
      pipeParsed.header.publicKey = .jstr pipePem ∧
      pipePemLoad pipePem = some 0 ∧
      pipeParsed.signature = pipeSignFn 0 (id pipeParsed.unsignedData)) ∧
    parse_and_verify pipePemLoad id pipeVerifyFn pipeContainer = true :=
  ⟨⟨rfl, rfl, rfl, rfl⟩,
    (C10_verify_trusts_embedded_key pipePemLoad id pipeVerifyFn pipeSignFn
      pipeContainer pipeParsed pipePem 0 rfl rfl rfl
      (fun p sig h => by simp [pipeVerifyFn]) rfl).2⟩

/-- A flip strictly below `n` keeps the `n`-suffix. -/
theorem drop_flipBit_eq (d : List Nat) (i k n : Nat) (hi : i < n) :
    (flipBit d i k).drop n = d.drop n := by
  apply List.ext_getElem?
  intro j
  simp only [List.getElem?_drop]
  rw [flipBit, List.getElem?_set]
  rw [if_neg (by omega)]

/-- Tamper rejection, relative to a parsed container whose trailing
64 bytes sign the prefix: the pipeline accepts the container and
rejects every single-bit flip, given a hash with no collision at the
prefix and a signature scheme with no second preimage at the
signature. -/
theorem tamper_reject_aux {PK : Type}
    (pemLoad : List Nat → Option PK) (sha : List Nat → List Nat)
    (verifyFn : PK → List Nat → List Nat → Bool) (signFn : PK → List Nat → List Nat)
    (d : List Nat) (s : SpdfFile) (pem : List Nat) (pk : PK)
    (hparse : parse_spdf d = .ok s)
    (hpk : s.header.publicKey = .jstr pem)
    (hload : pemLoad pem = some pk)
    (hverify : ∀ p sig h, verifyFn p sig h = true ↔ sig = signFn p h)
    (hsig : s.signature = signFn pk (sha s.unsignedData))
    (hshaInj : ∀ d2, sha d2 = sha s.unsignedData → d2 = s.unsignedData)
    (hsignInj : ∀ p h, signFn p h = s.signature → p = pk ∧ h = sha s.unsignedData) :
    parse_and_verify pemLoad sha verifyFn d = true ∧
    ∀ i k, i < d.length → k < 8 →
      parse_and_verify pemLoad sha verifyFn (flipBit d i k) = false := by
  obtain ⟨hlen143, hbound, hu, hsg, fields, hjson, hheader⟩ := parse_ok_facts d s hparse
  have hv : verify_signature pemLoad sha verifyFn s = .ok true := by
    simp only [verify_signature, hpk, hload]
    rw [if_pos ((hverify _ _ _).mpr hsig)]
  refine ⟨by simp only [parse_and_verify, hparse, hv], ?_⟩
  intro i k hi hk
  rcases hp2 : parse_spdf (flipBit d i k) with e | s2
  · simp [parse_and_verify, hp2]
  obtain ⟨hlen143b, hboundb, hub, hsgb, fields2, hjson2, hheader2⟩ :=
    parse_ok_facts (flipBit d i k) s2 hp2
  have hlen : (flipBit d i k).length = d.length := flipBit_length ..
  simp only [parse_and_verify, hp2]
  by_cases hcase : i < d.length - 64
  · -- flip in the signed prefix: same signature, different prefix
    have hsig_same : s2.signature = s.signature := by
      rw [hsgb, hsg, hlen]
      exact drop_flipBit_eq d i k _ hcase
    have hun_ne : s2.unsignedData ≠ s.unsignedData := by
      rw [hub, hu, hlen]
      exact take_flipBit_ne d i k _ hcase hi
    rcases hpk2case : s2.header.publicKey with _ | b | n2 | pem2 | xs | fl
    · simp [verify_signature, hpk2case]
    · simp [verify_signature, hpk2case]
    · simp [verify_signature, hpk2case]
    · rcases hload2 : pemLoad pem2 with _ | pk2
      · simp [verify_signature, hpk2case, hload2]
      · have hvf : verifyFn pk2 s2.signature (sha s2.unsignedData) = false := by
          by_contra hb
          have htrue : verifyFn pk2 s2.signature (sha s2.unsignedData) = true := by
            revert hb
            cases verifyFn pk2 s2.signature (sha s2.unsignedData) <;> simp
          have h1 := (hverify _ _ _).mp htrue
          have h2 := hsignInj pk2 (sha s2.unsignedData) (by rw [← h1, hsig_same])
          exact hun_ne (hshaInj _ h2.2)
        simp [verify_signature, hpk2case, hload2, hvf]
    · simp [verify_signature, hpk2case]
    · simp [verify_signature, hpk2case]
  · -- flip in the signature: same prefix, different signature
    have hile : d.length - 64 ≤ i := by omega
    have htake : (flipBit d i k).take (d.length - 64) = d.take (d.length - 64) :=
      take_flipBit_eq d i k _ hile
    have hun_same : s2.unsignedData = s.unsignedData := by
      rw [hub, hu, hlen, htake]
    have hsig_ne : s2.signature ≠ s.signature := by
      rw [hsgb, hsg, hlen]
      exact drop_flipBit_ne d i k _ hile hi
    have hhl : headerLenOf (flipBit d i k) = headerLenOf d := by
      unfold headerLenOf
      rw [getD_congr_of_take_eq _ _ (d.length - 64) 7 htake (by omega),
        getD_congr_of_take_eq _ _ (d.length - 64) 8 htake (by omega),
        getD_congr_of_take_eq _ _ (d.length - 64) 9 htake (by omega),
        getD_congr_of_take_eq _ _ (d.length - 64) 10 htake (by omega)]
    have hhb : headerBytesOf (flipBit d i k) = headerBytesOf d := by
      unfold headerBytesOf
      rw [hhl]
      exact drop_take_congr_of_take_eq _ _ (d.length - 64) 11 (headerLenOf d) htake
        (by omega)
    have hfields : fields2 = fields := by
      rw [hhb, hjson] at hjson2
      exact (JVal.jobj.inj (Option.some.inj hjson2)).symm
    have hheader_same : s2.header = s.header := by
      rw [hheader2, hfields, hheader]
    have hvf : verifyFn pk s2.signature (sha s2.unsignedData) = false := by
      by_contra hb
      have htrue : verifyFn pk s2.signature (sha s2.unsignedData) = true := by
        revert hb
        cases verifyFn pk s2.signature (sha s2.unsignedData) <;> simp
      have h1 := (hverify _ _ _).mp htrue
      rw [hun_same, ← hsig] at h1
      exact hsig_ne h1
    simp [verify_signature, hheader_same, hpk, hload, hvf]


/-- Parsing a byte string whose last 64 bytes were appended as a
signature recovers exactly that split. -/
theorem parse_append_sig (u sig : List Nat) (s : SpdfFile) (h64 : sig.length = 64)
    (hp : parse_spdf (u ++ sig) = .ok s) :
    s.unsignedData = u ∧ s.signature = sig := by
  obtain ⟨_, _, hu, hsg, _, _, _⟩ := parse_ok_facts _ s hp
  have hl : (u ++ sig).length - 64 = u.length := by simp [h64]
  constructor
  · rw [hu, hl, List.take_left]
  · rw [hsg, hl, List.drop_left]

/-- **C2.** Tamper evidence for produced containers: a container
assembled by `create_spdf` that parses back (its header JSON carrying
the signer's PEM) passes the parse-then-verify pipeline, and flipping
any single bit at any byte position — header, wrapped key, nonce,
ciphertext, tag, or inside the trailing 64-byte signature itself —
makes the pipeline reject.  SHA-256 and Ed25519 enter as abstract
functions; `hshaInj` and `hsignInj` state the standard cryptographic
idealization (no hash collision at this prefix, no signature forgery
at this signature value) under which the guarantee holds. -/
theorem C2_tamper_evidence {PK : Type}
    (aesgcm : List Nat → List Nat → List Nat → List Nat)
    (pemLoad : List Nat → Option PK) (sha : List Nat → List Nat)
    (verifyFn : PK → List Nat → List Nat → Bool) (signFn : PK → List Nat → List Nat)
    (docKey wrappedKey nonce headerJson : List Nat)
    (allowPrint allowCopy watermarkEnabled : Bool) (offlineDays : Nat)
    (pdfBytes : List Nat) (d : List Nat) (s : SpdfFile) (pem : List Nat) (pk : PK)
    (hd : d = create_spdf aesgcm sha signFn pk docKey wrappedKey nonce headerJson
      allowPrint allowCopy watermarkEnabled offlineDays pdfBytes)
    (hsig64 : ∀ h : List Nat, (signFn pk h).length = 64)
    (hparse : parse_spdf d = .ok s)
    (hpk : s.header.publicKey = .jstr pem)
    (hload : pemLoad pem = some pk)
    (hverify : ∀ p sig h, verifyFn p sig h = true ↔ sig = signFn p h)
    (hshaInj : ∀ d2, sha d2 = sha s.unsignedData → d2 = s.unsignedData)
    (hsignInj : ∀ p h, signFn p h = s.signature → p = pk ∧ h = sha s.unsignedData) :
    parse_and_verify pemLoad sha verifyFn d = true ∧
    ∀ i k, i < d.length → k < 8 →
      parse_and_verify pemLoad sha verifyFn (flipBit d i k) = false := by
  have hcr : d = create_unsigned aesgcm docKey wrappedKey nonce headerJson
      allowPrint allowCopy watermarkEnabled offlineDays pdfBytes ++
      signFn pk (sha (create_unsigned aesgcm docKey wrappedKey nonce headerJson
        allowPrint allowCopy watermarkEnabled offlineDays pdfBytes)) := hd
  obtain ⟨hueq, hseq⟩ := parse_append_sig _ _ s (hsig64 _) (by rw [← hcr]; exact hparse)
  have hsig : s.signature = signFn pk (sha s.unsignedData) := by
    rw [hseq, hueq]
  exact tamper_reject_aux pemLoad sha verifyFn signFn d s pem pk hparse hpk hload
    hverify hsig hshaInj hsignInj

/-- The unsigned part of the concrete tamper-evidence container. -/
def tamperUnsigned : List Nat :=
  create_unsigned pipeGcm [] (List.replicate 40 0) (List.replicate 12 0) pipeHeaderJson
    false false true 0 [7]

/-- A concrete signer with no second preimage at its signature of
`tamperUnsigned`. -/
def tamperSignFn : Nat → List Nat → List Nat :=
  fun p h => if p = 0 ∧ h = tamperUnsigned then List.replicate 64 0
    else List.replicate 64 1

/-- The verifier agreeing with `tamperSignFn`. -/
def tamperVerifyFn : Nat → List Nat → List Nat → Bool :=
  fun p sig h => sig == tamperSignFn p h

/-- The concrete container signed with `tamperSignFn`. -/
def tamperContainer : List Nat :=
  create_spdf pipeGcm id tamperSignFn 0 [] (List.replicate 40 0) (List.replicate 12 0)
    pipeHeaderJson false false true 0 [7]

/-- The parse of `tamperContainer`. -/
def tamperParsed : SpdfFile := (parse_spdf tamperContainer).toOption.getD emptySpdf

set_option maxRecDepth 32768 in
/-- **C2 witness.** The concrete container passes the pipeline, and
every single-bit flip anywhere in it is rejected; all hypotheses of
the tamper-evidence theorem are discharged at this instance. -/
theorem C2_tamper_evidence_witness :
    (parse_spdf tamperContainer = .ok tamperParsed ∧
      tamperParsed.header.publicKey = .jstr pipePem ∧
      pipePemLoad pipePem = some 0 ∧
      tamperParsed.signature = tamperSignFn 0 (id tamperParsed.unsignedData)) ∧
    (parse_and_verify pipePemLoad id tamperVerifyFn tamperContainer = true ∧
      ∀ i k, i < tamperContainer.length → k < 8 →
        parse_and_verify pipePemLoad id tamperVerifyFn (flipBit tamperContainer i k) =
          false) := by
  have hsigval : tamperParsed.signature = List.replicate 64 0 := rfl
  have hunval : tamperParsed.unsignedData = tamperUnsigned := rfl
  have hsignInj : ∀ p h, tamperSignFn p h = tamperParsed.signature →
      p = 0 ∧ h = id tamperParsed.unsignedData := by
    intro p h heq
    rw [hsigval] at heq
    unfold tamperSignFn at heq
    by_cases hc : p = 0 ∧ h = tamperUnsigned
    · exact ⟨hc.1, by rw [hc.2, hunval]; rfl⟩
    · rw [if_neg hc] at heq
      exact absurd heq (by decide)
  refine ⟨⟨rfl, rfl, rfl, rfl⟩, ?_⟩
  exact C2_tamper_evidence pipeGcm pipePemLoad id tamperVerifyFn tamperSignFn
    [] (List.replicate 40 0) (List.replicate 12 0) pipeHeaderJson false false true 0 [7]
    tamperContainer tamperParsed pipePem 0 rfl
    (fun h => by unfold tamperSignFn; split <;> simp)
    rfl rfl rfl
    (fun p sig h => by simp [tamperVerifyFn])
    (fun d2 h => h) hsignInj
